import Mathlib

/-!
Verification development for CalendarBuddy (`calendarbuddy.py`).

The Python source is shallowly embedded: SQLite tables become Lean lists of
records, the single run timestamp (`datetime.now()` read at the top of a sync
pass) is threaded as an explicit `now : String` argument, and the SHA-1 hex
digest in `uid_for` is modelled by its pre-hash input string (the digest is a
fixed function of that input; every comparison the program performs on uids
factors through it).
-/

set_option maxRecDepth 100000

/-- A parsed candidate event, as produced by `parse_events`:
`(title, start_time_iso, end_time_iso, meeting_link)`. -/
structure Candidate where
  title : String
  s_iso : Option String
  e_iso : Option String
  mlink : Option String
deriving Repr, DecidableEq

/-- A row of the `events` table (`CREATE TABLE events ...`).
`deleted INTEGER DEFAULT 0` is modelled as a `Bool`. -/
structure EventRow where
  uid : String
  title : Option String
  start_time : Option String
  end_time : Option String
  first_seen : Option String
  last_seen : Option String
  deleted : Bool
  meeting_link : Option String
deriving Repr, DecidableEq

/-- A row of the append-only `changes` table.  `record_change` reads its own
`datetime.now()`; all clock reads within one pass are modelled by the single
run timestamp `now`. -/
structure Change where
  ts : String
  action : String
  uid : String
  title : Option String
  start_time : Option String
  end_time : Option String
  meeting_link : Option String
deriving Repr, DecidableEq

/-- The database: the `events` table (rows in rowid order) and the
append-only `changes` table. -/
structure DB where
  events : List EventRow
  changes : List Change
deriving Repr, DecidableEq

/-- `uid_for(title, start_time, end_time)`:
`raw = (title or "") + "||" + (start_time or "") + "||" + (end_time or "")`,
then `sha1(raw)`.  The digest is modelled by its pre-hash input `raw`. -/
def uid_for (title s e : Option String) : String :=
  (title.getD "") ++ "||" ++ (s.getD "") ++ "||" ++ (e.getD "")

/-- The uid `process_and_sync` computes for a candidate. -/
def candUid (c : Candidate) : String :=
  uid_for (some c.title) c.s_iso c.e_iso

/-- `UPDATE events SET ... WHERE uid=?`: apply `f` to every row whose uid
matches. -/
def updateRows (es : List EventRow) (uid : String) (f : EventRow → EventRow) :
    List EventRow :=
  es.map (fun r => if r.uid = uid then f r else r)

/-- `INSERT OR REPLACE INTO events ...`: SQLite deletes any row with the same
primary key and inserts the new row (fresh rowid, hence at the end). -/
def insertOrReplace (es : List EventRow) (row : EventRow) : List EventRow :=
  es.filter (fun r => r.uid ≠ row.uid) ++ [row]

/-- `record_change(conn, action, uid, title, start_time, end_time,
meeting_link)` as a constructed row. -/
def mkChange (now action uid : String) (title s e ml : Option String) : Change :=
  ⟨now, action, uid, title, s, e, ml⟩

/-- The fresh row inserted for a new candidate (`deleted = 0`,
`first_seen = last_seen = now`). -/
def newRow (uid : String) (c : Candidate) (now : String) : EventRow :=
  ⟨uid, some c.title, c.s_iso, c.e_iso, some now, some now, false, c.mlink⟩

/-- The refresh `UPDATE events SET last_seen=?, deleted=0, meeting_link=?
WHERE uid=?` applied to one row. -/
def refreshRow (now : String) (ml : Option String) (r : EventRow) : EventRow :=
  { r with last_seen := some now, deleted := false, meeting_link := ml }

/-- The retire `UPDATE events SET deleted=1, last_seen=? WHERE uid=?`
applied to one row. -/
def retireRow (now : String) (r : EventRow) : EventRow :=
  { r with deleted := true, last_seen := some now }

/-- The supersession change record for a stored row `old`:
`record_change(conn, "updated-old-marked-deleted", old["uid"], old["title"],
old["start_time"], old["end_time"], old.get("meeting_link"))`. -/
def supersededChange (now : String) (old : EventRow) : Change :=
  mkChange now "updated-old-marked-deleted" old.uid old.title old.start_time
    old.end_time old.meeting_link

/-- The `"removed"` change record for a stored row. -/
def removedChange (now : String) (row : EventRow) : Change :=
  mkChange now "removed" row.uid row.title row.start_time row.end_time
    row.meeting_link

/-- `existing_same_title`: the snapshot rows with the candidate's title that
are active in the snapshot. -/
def sameTitleActive (dbMap : List EventRow) (c : Candidate) : List EventRow :=
  dbMap.filter (fun r => r.title = some c.title && r.deleted = false)

/-- One iteration of the supersession loop: retire `old` and record an
`"updated-old-marked-deleted"` change. -/
def retireStep (now : String) (acc : DB) (old : EventRow) : DB :=
  { events := updateRows acc.events old.uid (retireRow now),
    changes := acc.changes ++ [supersededChange now old] }

/-- The body of the candidate loop in `process_and_sync`, for one candidate.
`dbMap` is the snapshot loaded by `load_db_map` before the loop; the live
state is `(db, current_uids)`. -/
def processOne (dbMap : List EventRow) (now : String) (dryRun : Bool)
    (st : DB × List String) (c : Candidate) : DB × List String :=
  match dbMap.find? (fun r => r.uid = candUid c) with
  | some _ =>
      -- event already exists: update last_seen and ensure it's not deleted
      (if dryRun then st.1
       else { st.1 with
              events := updateRows st.1.events (candUid c) (refreshRow now c.mlink) },
       st.2 ++ [candUid c])
  | none =>
      if (sameTitleActive dbMap c).isEmpty then
        (if dryRun then st.1
         else { events := insertOrReplace st.1.events (newRow (candUid c) c now),
                changes := st.1.changes ++
                  [mkChange now "added" (candUid c) (some c.title) c.s_iso c.e_iso c.mlink] },
         st.2 ++ [candUid c])
      else
        (if dryRun then st.1
         else { events := insertOrReplace
                  ((sameTitleActive dbMap c).foldl (retireStep now) st.1).events
                  (newRow (candUid c) c now),
                changes := ((sameTitleActive dbMap c).foldl (retireStep now) st.1).changes ++
                  [mkChange now "added (updated)" (candUid c) (some c.title) c.s_iso c.e_iso c.mlink] },
         st.2 ++ [candUid c])

/-- One iteration of the end-of-pass removal loop: a snapshot row with
`row["deleted"] == 0` whose uid was not observed is marked deleted, with a
`"removed"` change record. -/
def removeStep (now : String) (dryRun : Bool) (cu : List String)
    (acc : DB) (row : EventRow) : DB :=
  if row.deleted = false && !(cu.contains row.uid) then
    if dryRun then acc
    else
      { events := updateRows acc.events row.uid (retireRow now),
        changes := acc.changes ++ [removedChange now row] }
  else acc

/-- The end-of-pass removal loop over the snapshot. -/
def removePass (dbMap : List EventRow) (now : String) (dryRun : Bool)
    (cu : List String) (db : DB) : DB :=
  dbMap.foldl (removeStep now dryRun cu) db

/-- The candidate loop of `process_and_sync`. -/
def syncLoop (dbMap : List EventRow) (now : String) (dryRun : Bool)
    (st : DB × List String) (cs : List Candidate) : DB × List String :=
  cs.foldl (processOne dbMap now dryRun) st

/-- `process_and_sync(events, conn, dry_run, lookback_mode)`.
`load_db_map` snapshots the table once; the removal loop runs only when not
in lookback mode. -/
def process_and_sync (events : List Candidate) (db : DB) (now : String)
    (dryRun lookbackMode : Bool) : DB :=
  let dbMap := db.events
  let st := syncLoop dbMap now dryRun (db, []) events
  if lookbackMode then st.1 else removePass dbMap now dryRun st.2 st.1

/-- The uids of a list of rows. -/
def uidsOf (es : List EventRow) : List String := es.map (·.uid)

/-- The uids of a candidate list, in order. -/
def candUids (cs : List Candidate) : List String := cs.map candUid

/-- Every row with the given uid is marked deleted. -/
def AllDeletedAt (es : List EventRow) (u : String) : Prop :=
  ∀ r ∈ es, r.uid = u → r.deleted = true

/-- The table still holds `row`'s identity, active, with title, start, end and
first_seen unchanged (last_seen and meeting_link unconstrained). -/
def FrameAt (row : EventRow) (es : List EventRow) : Prop :=
  (∃ r' ∈ es, r'.uid = row.uid) ∧
  ∀ r' ∈ es, r'.uid = row.uid →
    r'.deleted = false ∧ r'.title = row.title ∧ r'.start_time = row.start_time ∧
    r'.end_time = row.end_time ∧ r'.first_seen = row.first_seen

-- ===== Link extractor (`URL_RE`, `MEETING_DOMAINS_PRIORITY`,
-- `extract_meeting_link_from_lines`) =====

/-- The `\s` class of `URL_RE`, modelled over the ASCII whitespace range
(the text normalizer has already replaced the unicode spaces the tool
emits). -/
def isSpacePy (c : Char) : Bool :=
  c = ' ' || c = '\t' || c = '\n' || c = '\r' || c = '\x0b' || c = '\x0c'

/-- A character ending a URL match: the complement of `[^\s'\")<>]`. -/
def urlStop (c : Char) : Bool :=
  isSpacePy c || c = '\'' || c = '"' || c = ')' || c = '<' || c = '>'

/-- Match the scheme part `https?://` of `URL_RE` (case-insensitive) at the
head of the list; return the consumed characters (original case) and the
rest. -/
def stripScheme (cs : List Char) : Option (List Char × List Char) :=
  match cs with
  | c1 :: c2 :: c3 :: c4 :: c5 :: rest =>
      if c1.toLower = 'h' && c2.toLower = 't' && c3.toLower = 't' && c4.toLower = 'p' then
        if c5.toLower = 's' then
          match rest with
          | c6 :: c7 :: c8 :: rest' =>
              if c6 = ':' && c7 = '/' && c8 = '/' then
                some ([c1, c2, c3, c4, c5, c6, c7, c8], rest')
              else none
          | _ => none
        else
          if c5 = ':' then
            match rest with
            | c7 :: c8 :: rest' =>
                if c7 = '/' && c8 = '/' then
                  some ([c1, c2, c3, c4, c5, c7, c8], rest')
                else none
            | _ => none
          else none
      else none
  | _ => none

/-- Match `URL_RE` (`https?://[^\s'\")<>]+`) at the head of the list:
scheme, then a non-empty greedy run of non-stop characters. -/
def matchUrlAt (cs : List Char) : Option (List Char × List Char) :=
  match stripScheme cs with
  | none => none
  | some (pre, rest) =>
      if (rest.takeWhile (fun c => !(urlStop c))).isEmpty then none
      else some (pre ++ rest.takeWhile (fun c => !(urlStop c)),
                 rest.dropWhile (fun c => !(urlStop c)))

/-- `URL_RE.findall`: leftmost, non-overlapping matches.  The fuel (the
input length) dominates the number of scanning steps, since every step
consumes at least one character. -/
def findUrlsAux : Nat → List Char → List (List Char)
  | 0, _ => []
  | _ + 1, [] => []
  | fuel + 1, c :: cs =>
      match matchUrlAt (c :: cs) with
      | some (u, rest) => u :: findUrlsAux fuel rest
      | none => findUrlsAux fuel cs

/-- All `URL_RE` matches in one line. -/
def findUrls (cs : List Char) : List (List Char) := findUrlsAux cs.length cs

/-- The characters stripped from the end of each match:
`u = m.rstrip(".,;:)'\"")`. -/
def TRAILING_PUNCT : List Char := ['.', ',', ';', ':', ')', '\'', '"']

/-- `str.rstrip(".,;:)'\"")`. -/
def rstripPunct (cs : List Char) : List Char :=
  (cs.reverse.dropWhile (fun c => TRAILING_PUNCT.contains c)).reverse

/-- `str.lower()` (ASCII). -/
def lowerStr (s : String) : String := String.mk (s.data.map Char.toLower)

/-- Python's substring test `needle in hay`. -/
def hasInfix (hay needle : List Char) : Bool :=
  match hay with
  | [] => needle.isEmpty
  | _ :: t => needle.isPrefixOf hay || hasInfix t needle

/-- `domain in u.lower()`. -/
def containsSub (hay needle : String) : Bool := hasInfix hay.data needle.data

/-- `MEETING_DOMAINS_PRIORITY`. -/
def MEETING_DOMAINS_PRIORITY : List String :=
  ["zoom.us", "meet.google.com", "teams.microsoft.com", "webex.com",
   "gotomeeting.com", "gotowebinar.com", "jitsi", "whereby.com", "bluejeans.com"]

/-- The `urls` list built by the collection loop of
`extract_meeting_link_from_lines`: per line (falsy lines skipped), every
`URL_RE` match with trailing punctuation stripped, in line then match
order. -/
def urlsOfLines (lines : List String) : List String :=
  (lines.map (fun L => if L.isEmpty then []
      else (findUrls L.data).map (fun u => String.mk (rstripPunct u)))).flatten

/-- `extract_meeting_link_from_lines(lines)`: `None` when no URL was
collected; otherwise the first url containing the first priority domain
contained in any url (the nested `for domain / for u` loops), else
`urls[0]`. -/
def extract_meeting_link_from_lines (lines : List String) : Option String :=
  if (urlsOfLines lines).isEmpty then none
  else
    match MEETING_DOMAINS_PRIORITY.findSome?
        (fun d => (urlsOfLines lines).find? (fun u => containsSub (lowerStr u) d)) with
    | some u => some u
    | none => (urlsOfLines lines).head?

/-- Spec-side restatement of §4.3 (Link Extractor), for comparison with the
source translation: "If any match's text contains one of a fixed, ordered
list of known meeting-provider markers, return the first such match in
provider-priority order (not line order).  Otherwise return the first URL in
line order.  Return none if no URL is present." -/
def linkSpecChoice (urls : List String) : Option String :=
  match MEETING_DOMAINS_PRIORITY.filter
      (fun d => urls.any (fun u => containsSub (lowerStr u) d)) with
  | [] => urls.head?
  | d :: _ => urls.find? (fun u => containsSub (lowerStr u) d)

-- ===== Event line parser (`normalize_spaces`, date/time helpers,
-- `parse_events`) =====

/-- Python whitespace for `str.strip()` / `str.rstrip()`: ASCII whitespace
plus the unicode spaces the listing tool emits. -/
def pyWs (c : Char) : Bool :=
  isSpacePy c || c = ' ' || c = ' ' || c = ' '

/-- `str.strip()`. -/
def pyStrip (cs : List Char) : List Char :=
  ((cs.dropWhile pyWs).reverse.dropWhile pyWs).reverse

/-- `str.rstrip()`. -/
def pyStripRight (cs : List Char) : List Char :=
  (cs.reverse.dropWhile pyWs).reverse

/-- The class `[ \t\r\f\v]` collapsed by `normalize_spaces`. -/
def isHWs (c : Char) : Bool :=
  c = ' ' || c = '\t' || c = '\r' || c = '\x0C' || c = '\x0B'

/-- Collapse runs of horizontal whitespace to a single space (the flag
tracks being inside a run). -/
def collapseWsAux : Bool → List Char → List Char
  | _, [] => []
  | inRun, c :: cs =>
      if isHWs c then
        if inRun then collapseWsAux true cs else ' ' :: collapseWsAux true cs
      else c :: collapseWsAux false cs

/-- Collapse runs of horizontal whitespace to a single space. -/
def collapseWs (cs : List Char) : List Char := collapseWsAux false cs

/-- `normalize_spaces`: replace NBSP / narrow NBSP / thin space with a plain
space, then collapse `[ \t\r\f\v]+` runs to one space. -/
def normalize_spaces (s : String) : String :=
  String.mk (collapseWs (s.data.map
    (fun c => if c = ' ' || c = ' ' || c = ' ' then ' ' else c)))

/-- `BULLET_PREFIX` (`^\s*[•\*]\s*`): when the line starts with an optional
whitespace run, a bullet glyph and an optional whitespace run, return the
remainder (the effect of `BULLET_PREFIX.sub("", line)`). -/
def bulletStrip (cs : List Char) : Option (List Char) :=
  match cs.dropWhile isSpacePy with
  | c :: rest => if c = '•' || c = '*' then some (rest.dropWhile isSpacePy) else none
  | [] => none

/-- `re.sub(r"\s*\([^)]*@[^)]*\)$", "", title)`: drop a trailing
parenthesized group containing `@` and no inner `)`.  The leftmost viable
`(` is the first one after the previous `)`; the preceding `\s*` is left for
the following `.strip()`. -/
def stripAtParen (cs : List Char) : List Char :=
  if cs.getLast? = some ')' then
    let revBody := cs.dropLast.reverse
    let segRev := revBody.takeWhile (fun c => c ≠ ')')
    let preRev := revBody.dropWhile (fun c => c ≠ ')')
    let seg := segRev.reverse
    if '(' ∈ seg then
      let pre := seg.takeWhile (fun c => c ≠ '(')
      let inner := (seg.dropWhile (fun c => c ≠ '(')).tail
      if '@' ∈ inner then preRev.reverse ++ pre else cs
    else cs
  else cs

/-- Take exactly `n` characters satisfying `p`. -/
def takeExact (p : Char → Bool) : Nat → List Char → Option (List Char × List Char)
  | 0, cs => some ([], cs)
  | n + 1, c :: cs =>
      if p c then (takeExact p n cs).map (fun pr => (c :: pr.1, pr.2)) else none
  | _ + 1, [] => none

/-- Take exactly `n` digits. -/
def takeDigits (n : Nat) (cs : List Char) : Option (List Char × List Char) :=
  takeExact Char.isDigit n cs

/-- Require one exact character. -/
def expectChar (c : Char) : List Char → Option (List Char)
  | x :: rest => if x = c then some rest else none
  | [] => none

/-- Require one exact character, case-insensitively. -/
def expectCharCI (c : Char) : List Char → Option (List Char)
  | x :: rest => if x.toLower = c then some rest else none
  | [] => none

/-- `\s+`: at least one whitespace character. -/
def skipWs1 : List Char → Option (List Char)
  | c :: cs => if isSpacePy c then some (cs.dropWhile isSpacePy) else none
  | [] => none

/-- `\s*-\s*`. -/
def matchDashSep (cs : List Char) : Option (List Char) :=
  match cs.dropWhile isSpacePy with
  | '-' :: rest => some (rest.dropWhile isSpacePy)
  | _ => none

/-- `\d{4}-\d{2}-\d{2}` at the head, returning the captured text. -/
def matchDate10 (cs : List Char) : Option (List Char × List Char) := do
  let (y, r1) ← takeDigits 4 cs
  let r2 ← expectChar '-' r1
  let (m, r3) ← takeDigits 2 r2
  let r4 ← expectChar '-' r3
  let (d, r5) ← takeDigits 2 r4
  pure (y ++ '-' :: (m ++ '-' :: d), r5)

/-- The meridiem character class `[APMapm\.]`. -/
def isMeridChar (c : Char) : Bool :=
  c = 'A' || c = 'P' || c = 'M' || c = 'a' || c = 'p' || c = 'm' || c = '.'

/-- `\d{1,2}:\d{2}` at the head (greedy hour, with the one viable
backtrack). -/
def matchHMM (cs : List Char) : Option (List Char × List Char) :=
  (do
    let (h, r1) ← takeDigits 2 cs
    let r2 ← expectChar ':' r1
    let (m, r3) ← takeDigits 2 r2
    pure (h ++ ':' :: m, r3))
  <|>
  (do
    let (h, r1) ← takeDigits 1 cs
    let r2 ← expectChar ':' r1
    let (m, r3) ← takeDigits 2 r2
    pure (h ++ ':' :: m, r3))

/-- A time token `\d{1,2}:\d{2}(?:\s*[APMapm\.]{2,4})?` in continuation
style: `k` receives the captured token text and the rest.  The optional
meridiem group is greedy (4, then 3, then 2 class characters, then
absent). -/
def matchTimeToken (cs : List Char) (k : List Char → List Char → Option α) : Option α :=
  match matchHMM cs with
  | none => none
  | some (hm, r1) =>
      (((takeExact isMeridChar 4 (r1.dropWhile isSpacePy)).bind
          (fun pr => k (hm ++ r1.takeWhile isSpacePy ++ pr.1) pr.2)) <|>
       ((takeExact isMeridChar 3 (r1.dropWhile isSpacePy)).bind
          (fun pr => k (hm ++ r1.takeWhile isSpacePy ++ pr.1) pr.2)) <|>
       ((takeExact isMeridChar 2 (r1.dropWhile isSpacePy)).bind
          (fun pr => k (hm ++ r1.takeWhile isSpacePy ++ pr.1) pr.2))) <|>
      k hm r1

/-- `TIME_RANGE_RE` at one position: optional date prefix (tried first, as
the regex engine does), then time, `\s*-\s*`, time.  Returns the three
captured groups. -/
def matchTimeRangeAt (cs : List Char) :
    Option (Option (List Char) × List Char × List Char) :=
  (do
    let (d, r1) ← matchDate10 cs
    let r2 ← skipWs1 r1
    matchTimeToken r2 (fun t1 r3 =>
      (matchDashSep r3).bind (fun r4 =>
        matchTimeToken r4 (fun t2 _ => some (some d, t1, t2)))))
  <|>
  matchTimeToken cs (fun t1 r3 =>
    (matchDashSep r3).bind (fun r4 =>
      matchTimeToken r4 (fun t2 _ => some (none, t1, t2))))

/-- `TIME_RANGE_AT_RE` at one position:
`(\d{4}-\d{2}-\d{2})\s+at\s+<time>\s*-\s*<time>` (the `at` is
case-insensitive under `re.IGNORECASE`). -/
def matchTimeRangeAtKeyword (cs : List Char) :
    Option (List Char × List Char × List Char) := do
  let (d, r1) ← matchDate10 cs
  let r2 ← skipWs1 r1
  let r3 ← expectCharCI 'a' r2
  let r4 ← expectCharCI 't' r3
  let r5 ← skipWs1 r4
  matchTimeToken r5 (fun t1 r6 =>
    (matchDashSep r6).bind (fun r7 =>
      matchTimeToken r7 (fun t2 _ => some (d, t1, t2))))

/-- One side of `DATE_RANGE_RE1`: `\d{1,2}\s+[A-Za-z]{3,9}\s+\d{4}`,
returning the captured text (with its actual whitespace). -/
def matchLongDateRest (ds : List Char) (r : List Char) :
    Option (List Char × List Char) := do
  let _ ← skipWs1 r
  let ws1 := r.takeWhile isSpacePy
  let r1 := r.dropWhile isSpacePy
  let letters := r1.takeWhile Char.isAlpha
  let r2 := r1.dropWhile Char.isAlpha
  if 3 ≤ letters.length && letters.length ≤ 9 then do
    let _ ← skipWs1 r2
    let ws2 := r2.takeWhile isSpacePy
    let r3 := r2.dropWhile isSpacePy
    let (y, r4) ← takeDigits 4 r3
    pure (ds ++ ws1 ++ letters ++ ws2 ++ y, r4)
  else none

/-- `\d{1,2}\s+[A-Za-z]{3,9}\s+\d{4}` at the head (day digits greedy). -/
def matchLongDate (cs : List Char) : Option (List Char × List Char) :=
  ((takeDigits 2 cs).bind (fun pr => matchLongDateRest pr.1 pr.2)) <|>
  ((takeDigits 1 cs).bind (fun pr => matchLongDateRest pr.1 pr.2))

/-- `DATE_RANGE_RE1` at one position. -/
def matchDateRange1 (cs : List Char) : Option (List Char × List Char) := do
  let (g1, r1) ← matchLongDate cs
  let r2 ← matchDashSep r1
  let (g2, _) ← matchLongDate r2
  pure (g1, g2)

/-- `DATE_RANGE_RE2` at one position. -/
def matchDateRange2 (cs : List Char) : Option (List Char × List Char) := do
  let (g1, r1) ← matchDate10 cs
  let r2 ← matchDashSep r1
  let (g2, _) ← matchDate10 r2
  pure (g1, g2)

/-- `re.search`: try the position matcher at each suffix, leftmost first. -/
def searchAux (m : List Char → Option α) : List Char → Option α
  | [] => m []
  | c :: cs => (m (c :: cs)) <|> searchAux m cs

/-- `re.match(r"^\d{4}-\d{2}-\d{2}$", ...)`. -/
def isBareDate (cs : List Char) : Bool :=
  match matchDate10 cs with
  | some (_, rest) => rest.isEmpty
  | none => false

/-- Digits to a number. -/
def charsToNat (ds : List Char) : Nat :=
  ds.foldl (fun a c => 10 * a + (c.toNat - 48)) 0

/-- The `%d` directive (`3[01]|[12]\d|0[1-9]|[1-9]`). -/
def parseDay (cs : List Char) : Option (Nat × List Char) :=
  (match cs with
   | '3' :: c :: r => if c = '0' || c = '1' then some (30 + (c.toNat - 48), r) else none
   | _ => none)
  <|>
  (match cs with
   | c1 :: c2 :: r =>
       if (c1 = '1' || c1 = '2') && c2.isDigit then
         some (10 * (c1.toNat - 48) + (c2.toNat - 48), r)
       else none
   | _ => none)
  <|>
  (match cs with
   | '0' :: c :: r => if '1' ≤ c && c ≤ '9' then some (c.toNat - 48, r) else none
   | _ => none)
  <|>
  (match cs with
   | c :: r => if '1' ≤ c && c ≤ '9' then some (c.toNat - 48, r) else none
   | _ => none)

/-- The `%m` and `%I` directives (`1[0-2]|0[1-9]|[1-9]`). -/
def parseTwelve (cs : List Char) : Option (Nat × List Char) :=
  (match cs with
   | '1' :: c :: r =>
       if c = '0' || c = '1' || c = '2' then some (10 + (c.toNat - 48), r) else none
   | _ => none)
  <|>
  (match cs with
   | '0' :: c :: r => if '1' ≤ c && c ≤ '9' then some (c.toNat - 48, r) else none
   | _ => none)
  <|>
  (match cs with
   | c :: r => if '1' ≤ c && c ≤ '9' then some (c.toNat - 48, r) else none
   | _ => none)

/-- The `%H` directive (`2[0-3]|[0-1]\d|\d`). -/
def parseHour24 (cs : List Char) : Option (Nat × List Char) :=
  (match cs with
   | '2' :: c :: r =>
       if '0' ≤ c && c ≤ '3' then some (20 + (c.toNat - 48), r) else none
   | _ => none)
  <|>
  (match cs with
   | c1 :: c2 :: r =>
       if (c1 = '0' || c1 = '1') && c2.isDigit then
         some (10 * (c1.toNat - 48) + (c2.toNat - 48), r)
       else none
   | _ => none)
  <|>
  (match cs with
   | c :: r => if c.isDigit then some (c.toNat - 48, r) else none
   | _ => none)

/-- The `%M` directive (`[0-5]\d|\d`). -/
def parseMin (cs : List Char) : Option (Nat × List Char) :=
  (match cs with
   | c1 :: c2 :: r =>
       if ('0' ≤ c1 && c1 ≤ '5') && c2.isDigit then
         some (10 * (c1.toNat - 48) + (c2.toNat - 48), r)
       else none
   | _ => none)
  <|>
  (match cs with
   | c :: r => if c.isDigit then some (c.toNat - 48, r) else none
   | _ => none)

/-- The `%p` directive after upper-casing: `AM` or `PM` (true = PM). -/
def parseMerid (cs : List Char) : Option (Bool × List Char) :=
  match cs with
  | 'A' :: 'M' :: r => some (false, r)
  | 'P' :: 'M' :: r => some (true, r)
  | _ => none

/-- strptime's 12-hour conversion with AM/PM. -/
def conv12 (h : Nat) (pm : Bool) : Nat :=
  if pm then (if h = 12 then 12 else h + 12)
  else (if h = 12 then 0 else h)

/-- `strptime(t, "%I:%M %p")` (full match). -/
def tryIMpSpace (cs : List Char) : Option (Nat × Nat) := do
  let (h, r1) ← parseTwelve cs
  let r2 ← expectChar ':' r1
  let (m, r3) ← parseMin r2
  let r4 ← skipWs1 r3
  let (pm, r5) ← parseMerid r4
  if r5.isEmpty then pure (conv12 h pm, m) else none

/-- `strptime(t, "%I:%M%p")` (full match). -/
def tryIMp (cs : List Char) : Option (Nat × Nat) := do
  let (h, r1) ← parseTwelve cs
  let r2 ← expectChar ':' r1
  let (m, r3) ← parseMin r2
  let (pm, r4) ← parseMerid r3
  if r4.isEmpty then pure (conv12 h pm, m) else none

/-- `strptime(t, "%H:%M")` (full match). -/
def tryHM (cs : List Char) : Option (Nat × Nat) := do
  let (h, r1) ← parseHour24 cs
  let r2 ← expectChar ':' r1
  let (m, r3) ← parseMin r2
  if r3.isEmpty then pure (h, m) else none

/-- The final fallback `re.match(r"^(\d{1,2}):(\d{2})", t)` (prefix match,
no range checks). -/
def tryTimeFallback (cs : List Char) : Option (Nat × Nat) :=
  (do
    let (h, r1) ← takeDigits 2 cs
    let r2 ← expectChar ':' r1
    let (m, _) ← takeDigits 2 r2
    pure (charsToNat h, charsToNat m))
  <|>
  (do
    let (h, r1) ← takeDigits 1 cs
    let r2 ← expectChar ':' r1
    let (m, _) ← takeDigits 2 r2
    pure (charsToNat h, charsToNat m))

/-- `parse_time_with_optional_am_pm`: strip, remove all dots, then try
"%I:%M %p", "%I:%M%p", "%H:%M" on the upper-cased text, then the naive
`HH:MM` prefix regex.  `none` models the `(None, None)` return. -/
def parse_time_with_optional_am_pm (tstr : String) : Option (Nat × Nat) :=
  tryIMpSpace (((pyStrip tstr.data).filter (fun c => c ≠ '.')).map Char.toUpper) <|>
  tryIMp (((pyStrip tstr.data).filter (fun c => c ≠ '.')).map Char.toUpper) <|>
  tryHM (((pyStrip tstr.data).filter (fun c => c ≠ '.')).map Char.toUpper) <|>
  tryTimeFallback ((pyStrip tstr.data).filter (fun c => c ≠ '.'))

/-- Ordinal-suffix removal `re.sub(r'(\d+)(st|nd|rd|th)', r'\1', s)`
(case-insensitive): drop `st`/`nd`/`rd`/`th` directly after a digit run. -/
def isOrdSuffix (a b : Char) : Bool :=
  (a.toLower = 's' && b.toLower = 't') || (a.toLower = 'n' && b.toLower = 'd') ||
  (a.toLower = 'r' && b.toLower = 'd') || (a.toLower = 't' && b.toLower = 'h')

/-- Linear scan implementing the ordinal-suffix substitution.  The fuel
(the input length) dominates the number of steps, since every step consumes
at least one character. -/
def stripOrdFuel : Nat → Bool → List Char → List Char
  | 0, _, _ => []
  | _ + 1, _, [] => []
  | fuel + 1, prevDigit, c :: cs =>
      if c.isDigit then c :: stripOrdFuel fuel true cs
      else if prevDigit then
        match cs with
        | b :: r =>
            if isOrdSuffix c b then stripOrdFuel fuel false r
            else c :: stripOrdFuel fuel false (b :: r)
        | [] => [c]
      else c :: stripOrdFuel fuel false cs

/-- `re.sub(r'(\d+)(st|nd|rd|th)', r'\1', s)` (case-insensitive). -/
def stripOrd (cs : List Char) : List Char := stripOrdFuel cs.length false cs

/-- Month abbreviations for `%b` (lowercase; matching is
case-insensitive). -/
def MONTH_ABBRS : List String :=
  ["jan", "feb", "mar", "apr", "may", "jun", "jul", "aug", "sep", "oct", "nov", "dec"]

/-- Full month names for `%B`. -/
def MONTH_NAMES : List String :=
  ["january", "february", "march", "april", "may", "june", "july", "august",
   "september", "october", "november", "december"]

/-- Case-insensitive "starts with" against a lowercase pattern. -/
def ciStartsWith : List Char → List Char → Bool
  | [], _ => true
  | _ :: _, [] => false
  | p :: ps, c :: cs => p = c.toLower && ciStartsWith ps cs

/-- Match one month name from the list, returning its 1-based number. -/
def matchMonthAux : Nat → List String → List Char → Option (Nat × List Char)
  | _, [], _ => none
  | i, n :: ns, cs =>
      if ciStartsWith n.data cs then some (i + 1, cs.drop n.data.length)
      else matchMonthAux (i + 1) ns cs

/-- `%b` / `%B`: a month name from `names`. -/
def matchMonthIn (names : List String) (cs : List Char) : Option (Nat × List Char) :=
  matchMonthAux 0 names cs

/-- Gregorian leap year (as `calendar.isleap` / `datetime`). -/
def isLeap (y : Nat) : Bool := (y % 4 = 0 && y % 100 ≠ 0) || y % 400 = 0

/-- Days in a month. -/
def daysInMonth (y m : Nat) : Nat :=
  if m = 2 then (if isLeap y then 29 else 28)
  else if m = 4 || m = 6 || m = 9 || m = 11 then 30
  else 31

/-- The `datetime(y, m, d)` constructor check performed by `strptime`. -/
def validDate (y m d : Nat) : Bool :=
  1 ≤ y && y ≤ 9999 && 1 ≤ m && m ≤ 12 && 1 ≤ d && d ≤ daysInMonth y m

/-- `strptime(s, "%d %b %Y")` / `"%d %B %Y"` (full match). -/
def fmtDayMonthYear (names : List String) (cs : List Char) : Option (Nat × Nat × Nat) := do
  let (d, r1) ← parseDay cs
  let r2 ← skipWs1 r1
  let (m, r3) ← matchMonthIn names r2
  let r4 ← skipWs1 r3
  let (y, r5) ← takeDigits 4 r4
  if r5.isEmpty then pure (charsToNat y, m, d) else none

/-- `strptime(s, "%b %d %Y")` / `"%B %d %Y"` (full match). -/
def fmtMonthDayYear (names : List String) (cs : List Char) : Option (Nat × Nat × Nat) := do
  let (m, r1) ← matchMonthIn names cs
  let r2 ← skipWs1 r1
  let (d, r3) ← parseDay r2
  let r4 ← skipWs1 r3
  let (y, r5) ← takeDigits 4 r4
  if r5.isEmpty then pure (charsToNat y, m, d) else none

/-- `strptime(s, "%Y-%m-%d")` (full match; `%m`/`%d` accept one or two
digits). -/
def fmtYMD (cs : List Char) : Option (Nat × Nat × Nat) := do
  let (y, r1) ← takeDigits 4 cs
  let r2 ← expectChar '-' r1
  let (m, r3) ← parseTwelve r2
  let r4 ← expectChar '-' r3
  let (d, r5) ← parseDay r4
  if r5.isEmpty then pure (charsToNat y, m, d) else none

/-- A `HH:MM[:SS]` time with valid ranges, as accepted after the date in
`datetime.fromisoformat` (the common forms; fractional seconds are not
modelled). -/
def validTimePart (cs : List Char) : Bool :=
  match (do
    let (h, r1) ← takeDigits 2 cs
    let r2 ← expectChar ':' r1
    let (m, r3) ← takeDigits 2 r2
    pure (charsToNat h, charsToNat m, r3) : Option (Nat × Nat × List Char)) with
  | none => false
  | some (h, m, r3) =>
      if h ≤ 23 && m ≤ 59 then
        match r3 with
        | [] => true
        | ':' :: r4 =>
            match takeDigits 2 r4 with
            | some (s, []) => charsToNat s ≤ 59
            | _ => false
        | _ => false
      else false

/-- `datetime.fromisoformat` (the last-resort branch of
`try_parse_date_to_iso`), modelled for the common pre-3.11 forms:
`YYYY-MM-DD` optionally followed by one separator character and a valid
time; only the date is kept (`.date()`). -/
def fromisoformatDate (cs : List Char) : Option (Nat × Nat × Nat) := do
  let (y, r1) ← takeDigits 4 cs
  let r2 ← expectChar '-' r1
  let (m, r3) ← takeDigits 2 r2
  let r4 ← expectChar '-' r3
  let (d, r5) ← takeDigits 2 r4
  if validDate (charsToNat y) (charsToNat m) (charsToNat d) then
    match r5 with
    | [] => pure (charsToNat y, charsToNat m, charsToNat d)
    | _ :: tr =>
        if validTimePart tr then pure (charsToNat y, charsToNat m, charsToNat d)
        else none
  else none

/-- Validate a parsed (y, m, d) as `datetime(y, m, d)` does; a failure makes
`strptime` raise, so the caller falls through to the next format. -/
def vDate (r : Option (Nat × Nat × Nat)) : Option (Nat × Nat × Nat) :=
  r.bind (fun ymd => if validDate ymd.1 ymd.2.1 ymd.2.2 then some ymd else none)

/-- Zero-padded 2-digit field. -/
def pad2 (n : Nat) : String := if n < 10 then "0" ++ toString n else toString n

/-- Zero-padded 4-digit year. -/
def pad4 (n : Nat) : String :=
  if n < 10 then "000" ++ toString n
  else if n < 100 then "00" ++ toString n
  else if n < 1000 then "0" ++ toString n
  else toString n

/-- `date(y, m, d).isoformat()`. -/
def isoOfYMD (ymd : Nat × Nat × Nat) : String :=
  pad4 ymd.1 ++ "-" ++ pad2 ymd.2.1 ++ "-" ++ pad2 ymd.2.2

/-- `try_parse_date_to_iso`: strip, drop ordinal suffixes, try the five
strptime formats in order, then `fromisoformat`. -/
def try_parse_date_to_iso (s : String) : Option String :=
  if s.isEmpty then none
  else
    ((vDate (fmtDayMonthYear MONTH_ABBRS (stripOrd (pyStrip s.data)))) <|>
     (vDate (fmtDayMonthYear MONTH_NAMES (stripOrd (pyStrip s.data)))) <|>
     (vDate (fmtYMD (stripOrd (pyStrip s.data)))) <|>
     (vDate (fmtMonthDayYear MONTH_ABBRS (stripOrd (pyStrip s.data)))) <|>
     (vDate (fmtMonthDayYear MONTH_NAMES (stripOrd (pyStrip s.data)))) <|>
     (fromisoformatDate (stripOrd (pyStrip s.data)))).map isoOfYMD

/-- `to_iso_datetime_str(date_iso, hour, minute)`:
`f"{date_iso}T{hour:02d}:{minute:02d}:00"`, or `None` when the date is
`None`. -/
def to_iso_datetime_str (dateIso : Option String) (h m : Nat) : Option String :=
  match dateIso with
  | none => none
  | some d => some (d ++ "T" ++ pad2 h ++ ":" ++ pad2 m ++ ":00")

/-- The parser's transient block state: `cur_title`/`cur_start`/`cur_end`
and `buffer_lines`, plus the events emitted so far. -/
structure PEState where
  cur : Option (String × Option String × Option String)
  buffer : List String
  events : List Candidate
deriving Repr, DecidableEq

/-- `commit()`: emit the active block (if any) with the link extracted from
its buffer, and reset the block state. -/
def commitBlock (st : PEState) : PEState :=
  match st.cur with
  | none => { cur := none, buffer := [], events := st.events }
  | some (t, s, e) =>
      { cur := none, buffer := [],
        events := st.events ++ [⟨t, s, e, extract_meeting_link_from_lines st.buffer⟩] }

/-- The priority chain of extraction attempts for a buffered line
(`DATE_RANGE_RE1`, `DATE_RANGE_RE2`, `TIME_RANGE_AT_RE`, `TIME_RANGE_RE`,
bare date); a pattern that matches but fails to convert falls through to the
next, exactly as the Python `if m: ... if ok: continue` chain does. -/
def applyBareDate (cur : Option String × Option String) (lcs : List Char) :
    Option String × Option String :=
  if isBareDate (pyStrip lcs) then
    (some (String.mk (pyStrip lcs) ++ "T00:00:00"),
     some (String.mk (pyStrip lcs) ++ "T23:59:59"))
  else cur

/-- `TIME_RANGE_RE` attempt: a missing date prefix resolves against the
current processing date. -/
def applyTimeRange (todayIso : String) (cur : Option String × Option String)
    (lcs : List Char) : Option String × Option String :=
  match searchAux matchTimeRangeAt lcs with
  | some (dopt, t1, t2) =>
      match parse_time_with_optional_am_pm (String.mk t1),
            parse_time_with_optional_am_pm (String.mk t2) with
      | some hm1, some hm2 =>
          (to_iso_datetime_str
            (match dopt with
             | some d => try_parse_date_to_iso (String.mk d)
             | none => some todayIso) hm1.1 hm1.2,
           to_iso_datetime_str
            (match dopt with
             | some d => try_parse_date_to_iso (String.mk d)
             | none => some todayIso) hm2.1 hm2.2)
      | _, _ => applyBareDate cur lcs
  | none => applyBareDate cur lcs

/-- `TIME_RANGE_AT_RE` attempt. -/
def applyTimeRangeAtKeyword (todayIso : String) (cur : Option String × Option String)
    (lcs : List Char) : Option String × Option String :=
  match searchAux matchTimeRangeAtKeyword lcs with
  | some (d, t1, t2) =>
      match try_parse_date_to_iso (String.mk d),
            parse_time_with_optional_am_pm (String.mk t1),
            parse_time_with_optional_am_pm (String.mk t2) with
      | some di, some hm1, some hm2 =>
          (to_iso_datetime_str (some di) hm1.1 hm1.2,
           to_iso_datetime_str (some di) hm2.1 hm2.2)
      | _, _, _ => applyTimeRange todayIso cur lcs
  | none => applyTimeRange todayIso cur lcs

/-- `DATE_RANGE_RE2` attempt. -/
def applyDateRange2 (todayIso : String) (cur : Option String × Option String)
    (lcs : List Char) : Option String × Option String :=
  match searchAux matchDateRange2 lcs with
  | some (g1, g2) =>
      match try_parse_date_to_iso (String.mk g1), try_parse_date_to_iso (String.mk g2) with
      | some si, some ei => (some (si ++ "T00:00:00"), some (ei ++ "T23:59:59"))
      | _, _ => applyTimeRangeAtKeyword todayIso cur lcs
  | none => applyTimeRangeAtKeyword todayIso cur lcs

/-- `DATE_RANGE_RE1` attempt (the head of the chain). -/
def applyDateRange1 (todayIso : String) (cur : Option String × Option String)
    (lcs : List Char) : Option String × Option String :=
  match searchAux matchDateRange1 lcs with
  | some (g1, g2) =>
      match try_parse_date_to_iso (String.mk g1), try_parse_date_to_iso (String.mk g2) with
      | some si, some ei => (some (si ++ "T00:00:00"), some (ei ++ "T23:59:59"))
      | _, _ => applyDateRange2 todayIso cur lcs
  | none => applyDateRange2 todayIso cur lcs

/-- One line of the `parse_events` loop. -/
def parseLine (todayIso : String) (st : PEState) (raw : String) : PEState :=
  if (pyStripRight raw.data).isEmpty then st
  else
    match bulletStrip (normalize_spaces (String.mk (pyStripRight raw.data))).data with
    | some tcs =>
        { cur := some (String.mk (pyStrip (stripAtParen (pyStrip tcs))), none, none),
          buffer := [],
          events := (if st.cur.isSome then commitBlock st else st).events }
    | none =>
        match st.cur with
        | none => st
        | some (t, s0, e0) =>
            { cur := some (t,
                (applyDateRange1 todayIso (s0, e0)
                  (normalize_spaces (String.mk (pyStripRight raw.data))).data).1,
                (applyDateRange1 todayIso (s0, e0)
                  (normalize_spaces (String.mk (pyStripRight raw.data))).data).2),
              buffer := st.buffer ++ [normalize_spaces (String.mk (pyStripRight raw.data))],
              events := st.events }

/-- `parse_events(lines)`, with the ambient `date.today().isoformat()` made
an explicit `todayIso` argument. -/
def parse_events (todayIso : String) (lines : List String) : List Candidate :=
  (commitBlock (lines.foldl (parseLine todayIso) ⟨none, [], []⟩)).events

-- ===== Helper lemmas: basic operations =====

theorem uid_refreshRow (now : String) (ml : Option String) (r : EventRow) :
    (refreshRow now ml r).uid = r.uid := rfl

theorem uid_retireRow (now : String) (r : EventRow) :
    (retireRow now r).uid = r.uid := rfl

theorem mem_uidsOf {u : String} {es : List EventRow} :
    u ∈ uidsOf es ↔ ∃ r ∈ es, r.uid = u := by
  simp [uidsOf]

theorem uidsOf_updateRows (es : List EventRow) (u : String) (f : EventRow → EventRow)
    (hf : ∀ r, (f r).uid = r.uid) : uidsOf (updateRows es u f) = uidsOf es := by
  simp only [uidsOf, updateRows, List.map_map]
  apply List.map_congr_left
  intro r _
  by_cases h : r.uid = u <;> simp [h, hf]

theorem exists_of_mem_updateRows {r' : EventRow} {es : List EventRow} {u : String}
    {f : EventRow → EventRow} (h : r' ∈ updateRows es u f) :
    ∃ r ∈ es, r' = if r.uid = u then f r else r := by
  simp only [updateRows, List.mem_map] at h
  obtain ⟨r, hr, he⟩ := h
  exact ⟨r, hr, he.symm⟩

theorem mem_updateRows_of_ne {r : EventRow} {es : List EventRow} {u : String}
    {f : EventRow → EventRow} (hr : r ∈ es) (hne : r.uid ≠ u) :
    r ∈ updateRows es u f := by
  simp only [updateRows, List.mem_map]
  exact ⟨r, hr, by simp [hne]⟩

theorem mem_updateRows_self {r : EventRow} {es : List EventRow} {u : String}
    {f : EventRow → EventRow} (hr : r ∈ es) (he : r.uid = u) :
    f r ∈ updateRows es u f := by
  simp only [updateRows, List.mem_map]
  exact ⟨r, hr, by simp [he]⟩

theorem mem_insertOrReplace_elim {r' : EventRow} {es : List EventRow} {row : EventRow}
    (h : r' ∈ insertOrReplace es row) : (r' ∈ es ∧ r'.uid ≠ row.uid) ∨ r' = row := by
  simp only [insertOrReplace, List.mem_append, List.mem_filter, List.mem_singleton,
    decide_eq_true_eq] at h
  tauto

theorem mem_insertOrReplace_of_ne {r : EventRow} {es : List EventRow} {row : EventRow}
    (hr : r ∈ es) (hne : r.uid ≠ row.uid) : r ∈ insertOrReplace es row := by
  simp only [insertOrReplace, List.mem_append, List.mem_filter, decide_eq_true_eq]
  exact Or.inl ⟨hr, hne⟩

theorem self_mem_insertOrReplace (es : List EventRow) (row : EventRow) :
    row ∈ insertOrReplace es row := by
  simp [insertOrReplace]

theorem mem_uids_insertOrReplace {u : String} {es : List EventRow} {row : EventRow}
    (h : u ∈ uidsOf es) : u ∈ uidsOf (insertOrReplace es row) := by
  rcases mem_uidsOf.1 h with ⟨r, hr, rfl⟩
  by_cases he : r.uid = row.uid
  · exact mem_uidsOf.2 ⟨row, self_mem_insertOrReplace es row, he.symm⟩
  · exact mem_uidsOf.2 ⟨r, mem_insertOrReplace_of_ne hr he, rfl⟩

theorem uid_mem_insertOrReplace (es : List EventRow) (row : EventRow) :
    row.uid ∈ uidsOf (insertOrReplace es row) :=
  mem_uidsOf.2 ⟨row, self_mem_insertOrReplace es row, rfl⟩

theorem mem_uids_insertOrReplace_elim {u : String} {es : List EventRow} {row : EventRow}
    (h : u ∈ uidsOf (insertOrReplace es row)) : u ∈ uidsOf es ∨ u = row.uid := by
  rcases mem_uidsOf.1 h with ⟨r, hr, rfl⟩
  rcases mem_insertOrReplace_elim hr with ⟨hr', _⟩ | rfl
  · exact Or.inl (mem_uidsOf.2 ⟨r, hr', rfl⟩)
  · exact Or.inr rfl

-- ===== Helper lemmas: AllDeletedAt preservation and establishment =====

theorem allDeletedAt_updateRows_retire {es : List EventRow} {u : String} {now : String}
    (v : String) (h : AllDeletedAt es u) :
    AllDeletedAt (updateRows es v (retireRow now)) u := by
  intro r' hr' he
  rcases exists_of_mem_updateRows hr' with ⟨r, hr, rfl⟩
  by_cases hv : r.uid = v
  · simp [hv, retireRow]
  · simp only [hv, if_neg, ite_false] at he ⊢
    exact h r hr he

theorem allDeletedAt_updateRows_ne {es : List EventRow} {u v : String}
    {f : EventRow → EventRow} (hf : ∀ r, (f r).uid = r.uid) (hv : v ≠ u)
    (h : AllDeletedAt es u) : AllDeletedAt (updateRows es v f) u := by
  intro r' hr' he
  rcases exists_of_mem_updateRows hr' with ⟨r, hr, rfl⟩
  by_cases hm : r.uid = v
  · rw [if_pos hm, hf r] at he
    exact absurd (hm.symm.trans he) hv
  · rw [if_neg hm] at he ⊢
    exact h r hr he

theorem allDeletedAt_updateRows_establish (es : List EventRow) (u : String) (now : String) :
    AllDeletedAt (updateRows es u (retireRow now)) u := by
  intro r' hr' he
  rcases exists_of_mem_updateRows hr' with ⟨r, hr, rfl⟩
  by_cases hm : r.uid = u
  · simp [hm, retireRow]
  · rw [if_neg hm] at he
    exact absurd he hm

theorem allDeletedAt_insertOrReplace {es : List EventRow} {u : String} {row : EventRow}
    (hne : row.uid ≠ u) (h : AllDeletedAt es u) :
    AllDeletedAt (insertOrReplace es row) u := by
  intro r' hr' he
  rcases mem_insertOrReplace_elim hr' with ⟨hr, _⟩ | rfl
  · exact h r' hr he
  · exact absurd he hne

theorem allDeletedAt_retireFold {u : String} {now : String}
    (olds : List EventRow) (db : DB) (h : AllDeletedAt db.events u) :
    AllDeletedAt ((olds.foldl (retireStep now) db).events) u := by
  induction olds generalizing db with
  | nil => simpa using h
  | cons o os ih =>
      rw [List.foldl_cons]
      exact ih _ (allDeletedAt_updateRows_retire o.uid h)

theorem allDeletedAt_retireFold_establish {now : String}
    (olds : List EventRow) (db : DB) {old : EventRow} (hmem : old ∈ olds) :
    AllDeletedAt ((olds.foldl (retireStep now) db).events) old.uid := by
  induction olds generalizing db with
  | nil => cases hmem
  | cons o os ih =>
      rw [List.foldl_cons]
      rcases List.mem_cons.1 hmem with rfl | hmem'
      · exact allDeletedAt_retireFold os _ (allDeletedAt_updateRows_establish db.events old.uid now)
      · exact ih _ hmem'

theorem allDeletedAt_processOne {dbMap : List EventRow} {now : String} {dry : Bool}
    {u : String} {st : DB × List String} {c : Candidate}
    (hc : candUid c ≠ u) (h : AllDeletedAt st.1.events u) :
    AllDeletedAt (processOne dbMap now dry st c).1.events u := by
  unfold processOne
  split
  · split
    · exact h
    · exact allDeletedAt_updateRows_ne (fun r => rfl) hc h
  · split
    · split
      · exact h
      · exact allDeletedAt_insertOrReplace hc h
    · split
      · exact h
      · exact allDeletedAt_insertOrReplace hc (allDeletedAt_retireFold _ _ h)

theorem allDeletedAt_syncLoop {dbMap : List EventRow} {now : String} {dry : Bool}
    {u : String} (cs : List Candidate) (st : DB × List String)
    (hc : ∀ c ∈ cs, candUid c ≠ u) (h : AllDeletedAt st.1.events u) :
    AllDeletedAt (syncLoop dbMap now dry st cs).1.events u := by
  induction cs generalizing st with
  | nil => simpa [syncLoop] using h
  | cons c cs' ih =>
      rw [syncLoop, List.foldl_cons]
      exact ih _ (fun c' hc' => hc c' (List.mem_cons_of_mem c hc'))
        (allDeletedAt_processOne (hc c (List.mem_cons_self c cs')) h)

theorem allDeletedAt_removeStep {now : String} {dry : Bool} {cu : List String}
    {u : String} (acc : DB) (row : EventRow) (h : AllDeletedAt acc.events u) :
    AllDeletedAt (removeStep now dry cu acc row).events u := by
  unfold removeStep
  split
  · split
    · exact h
    · exact allDeletedAt_updateRows_retire row.uid h
  · exact h

theorem allDeletedAt_removePass {now : String} {dry : Bool} {cu : List String}
    {u : String} (dbMap : List EventRow) (db : DB) (h : AllDeletedAt db.events u) :
    AllDeletedAt ((removePass dbMap now dry cu db).events) u := by
  induction dbMap generalizing db with
  | nil => simpa [removePass] using h
  | cons row rows ih =>
      rw [removePass, List.foldl_cons]
      exact ih _ (allDeletedAt_removeStep db row h)

theorem allDeletedAt_removePass_establish {now : String} {cu : List String}
    (dbMap : List EventRow) (db : DB) {r0 : EventRow} (hmem : r0 ∈ dbMap)
    (hd : r0.deleted = false) (hcu : cu.contains r0.uid = false) :
    AllDeletedAt ((removePass dbMap now false cu db).events) r0.uid := by
  induction dbMap generalizing db with
  | nil => cases hmem
  | cons row rows ih =>
      rw [removePass, List.foldl_cons]
      rcases List.mem_cons.1 hmem with rfl | hmem'
      · have hstep : removeStep now false cu db r0 =
            { events := updateRows db.events r0.uid (retireRow now),
              changes := db.changes ++ [removedChange now r0] } := by
          unfold removeStep
          rw [hd, hcu]
          simp
        rw [hstep]
        exact allDeletedAt_removePass rows _ (allDeletedAt_updateRows_establish db.events r0.uid now)
      · exact ih _ hmem'

theorem allDeletedAt_init {S : List EventRow} (hn : (uidsOf S).Nodup) {row : EventRow}
    (hr : row ∈ S) (hd : row.deleted = true) : AllDeletedAt S row.uid := by
  intro r' hr' he
  have : r' = row := List.inj_on_of_nodup_map (by simpa [uidsOf] using hn) hr' hr he
  rw [this]
  exact hd

-- ===== Helper lemmas: observed-uid accumulator and change-log shape =====

theorem processOne_snd (dbMap : List EventRow) (now : String) (dry : Bool)
    (st : DB × List String) (c : Candidate) :
    (processOne dbMap now dry st c).2 = st.2 ++ [candUid c] := by
  unfold processOne
  split
  · rfl
  · split <;> rfl

theorem syncLoop_snd (dbMap : List EventRow) (now : String) (dry : Bool)
    (cs : List Candidate) (st : DB × List String) :
    (syncLoop dbMap now dry st cs).2 = st.2 ++ candUids cs := by
  induction cs generalizing st with
  | nil => simp [syncLoop, candUids]
  | cons c cs' ih =>
      rw [syncLoop, List.foldl_cons]
      show (syncLoop dbMap now dry (processOne dbMap now dry st c) cs').2 = _
      rw [ih, processOne_snd]
      simp [candUids]

theorem retireFold_changes (now : String) (olds : List EventRow) (db : DB) :
    (olds.foldl (retireStep now) db).changes
      = db.changes ++ olds.map (supersededChange now) := by
  induction olds generalizing db with
  | nil => simp
  | cons o os ih =>
      rw [List.foldl_cons, ih]
      simp [retireStep]

theorem processOne_changes_shape (dbMap : List EventRow) (now : String) (dry : Bool)
    (st : DB × List String) (c : Candidate) :
    ∃ l, (processOne dbMap now dry st c).1.changes = st.1.changes ++ l ∧
      ∀ ch ∈ l, ch.action ≠ "removed" := by
  unfold processOne
  split
  · refine ⟨[], ?_, by simp⟩
    split <;> simp
  · split
    · split
      · exact ⟨[], by simp, by simp⟩
      · refine ⟨[mkChange now "added" (candUid c) (some c.title) c.s_iso c.e_iso c.mlink], ?_, ?_⟩
        · simp
        · intro ch hch
          rw [List.mem_singleton.1 hch]
          simp [mkChange]
    · split
      · exact ⟨[], by simp, by simp⟩
      · refine ⟨(sameTitleActive dbMap c).map (supersededChange now) ++
          [mkChange now "added (updated)" (candUid c) (some c.title) c.s_iso c.e_iso c.mlink],
          ?_, ?_⟩
        · simp [retireFold_changes]
        · intro ch hch
          rcases List.mem_append.1 hch with hch | hch
          · rcases List.mem_map.1 hch with ⟨old, _, rfl⟩
            simp [supersededChange, mkChange]
          · rw [List.mem_singleton.1 hch]
            simp [mkChange]

theorem syncLoop_changes_shape (dbMap : List EventRow) (now : String) (dry : Bool)
    (cs : List Candidate) (st : DB × List String) :
    ∃ l, (syncLoop dbMap now dry st cs).1.changes = st.1.changes ++ l ∧
      ∀ ch ∈ l, ch.action ≠ "removed" := by
  induction cs generalizing st with
  | nil => exact ⟨[], by simp [syncLoop], by simp⟩
  | cons c cs' ih =>
      rw [syncLoop, List.foldl_cons]
      obtain ⟨l1, hl1, hn1⟩ := processOne_changes_shape dbMap now dry st c
      obtain ⟨l2, hl2, hn2⟩ := ih (processOne dbMap now dry st c)
      refine ⟨l1 ++ l2, ?_, ?_⟩
      · rw [show (List.foldl (processOne dbMap now dry) (processOne dbMap now dry st c) cs')
            = syncLoop dbMap now dry (processOne dbMap now dry st c) cs' from rfl, hl2, hl1]
        simp
      · intro ch hch
        rcases List.mem_append.1 hch with h | h
        · exact hn1 ch h
        · exact hn2 ch h

theorem removePass_changes (dbMap : List EventRow) (now : String) (cu : List String)
    (db : DB) :
    (removePass dbMap now false cu db).changes
      = db.changes ++
        (dbMap.filter (fun r => r.deleted = false && !(cu.contains r.uid))).map
          (removedChange now) := by
  induction dbMap generalizing db with
  | nil => simp [removePass]
  | cons row rows ih =>
      rw [removePass, List.foldl_cons,
        show List.foldl (removeStep now false cu) (removeStep now false cu db row) rows
          = removePass rows now false cu (removeStep now false cu db row) from rfl, ih]
      simp only [List.filter_cons]
      by_cases hcond : (row.deleted = false && !(cu.contains row.uid)) = true
      · rw [if_pos hcond]
        have : removeStep now false cu db row =
            { events := updateRows db.events row.uid (retireRow now),
              changes := db.changes ++ [removedChange now row] } := by
          unfold removeStep
          rw [if_pos hcond]
          simp
        rw [this]
        simp
      · rw [if_neg hcond]
        have : removeStep now false cu db row = db := by
          unfold removeStep
          rw [if_neg hcond]
        rw [this]

-- ===== Helper lemmas: uid growth and provenance =====

theorem uidsOf_retireFold (now : String) (olds : List EventRow) (db : DB) :
    uidsOf ((olds.foldl (retireStep now) db).events) = uidsOf db.events := by
  induction olds generalizing db with
  | nil => rfl
  | cons o os ih =>
      rw [List.foldl_cons, ih]
      exact uidsOf_updateRows _ _ _ (fun r => rfl)

theorem uids_mono_processOne {dbMap : List EventRow} {now : String} {dry : Bool}
    {st : DB × List String} {c : Candidate} {u : String}
    (h : u ∈ uidsOf st.1.events) :
    u ∈ uidsOf (processOne dbMap now dry st c).1.events := by
  unfold processOne
  split
  · split
    · exact h
    · rw [uidsOf_updateRows st.1.events (candUid c) (refreshRow now c.mlink) (fun r => rfl)]
      exact h
  · split
    · split
      · exact h
      · exact mem_uids_insertOrReplace h
    · split
      · exact h
      · exact mem_uids_insertOrReplace (by rw [uidsOf_retireFold]; exact h)

theorem uids_mono_syncLoop {dbMap : List EventRow} {now : String} {dry : Bool}
    (cs : List Candidate) (st : DB × List String) {u : String}
    (h : u ∈ uidsOf st.1.events) :
    u ∈ uidsOf (syncLoop dbMap now dry st cs).1.events := by
  induction cs generalizing st with
  | nil => exact h
  | cons c cs' ih =>
      rw [syncLoop, List.foldl_cons]
      exact ih _ (uids_mono_processOne h)

theorem uidsOf_removeStep (now : String) (dry : Bool) (cu : List String)
    (acc : DB) (row : EventRow) :
    uidsOf (removeStep now dry cu acc row).events = uidsOf acc.events := by
  unfold removeStep
  split
  · split
    · rfl
    · exact uidsOf_updateRows _ _ _ (fun r => rfl)
  · rfl

theorem uidsOf_removePass (dbMap : List EventRow) (now : String) (dry : Bool)
    (cu : List String) (db : DB) :
    uidsOf ((removePass dbMap now dry cu db).events) = uidsOf db.events := by
  induction dbMap generalizing db with
  | nil => rfl
  | cons row rows ih =>
      rw [removePass, List.foldl_cons,
        show List.foldl (removeStep now dry cu) (removeStep now dry cu db row) rows
          = removePass rows now dry cu (removeStep now dry cu db row) from rfl,
        ih, uidsOf_removeStep]

theorem processOne_rows_source {dbMap : List EventRow} {now : String} {dry : Bool}
    {st : DB × List String} {c : Candidate} {u : String}
    (h : u ∈ uidsOf (processOne dbMap now dry st c).1.events) :
    u ∈ uidsOf st.1.events ∨ u = candUid c := by
  unfold processOne at h
  revert h
  split
  · split
    · exact fun h => Or.inl h
    · intro h
      rw [uidsOf_updateRows st.1.events (candUid c) (refreshRow now c.mlink) (fun r => rfl)] at h
      exact Or.inl h
  · split
    · split
      · exact fun h => Or.inl h
      · intro h
        rcases mem_uids_insertOrReplace_elim h with h | h
        · exact Or.inl h
        · exact Or.inr h
    · split
      · exact fun h => Or.inl h
      · intro h
        rcases mem_uids_insertOrReplace_elim h with h | h
        · rw [uidsOf_retireFold] at h
          exact Or.inl h
        · exact Or.inr h

theorem syncLoop_rows_source {dbMap : List EventRow} {now : String} {dry : Bool}
    (cs : List Candidate) (st : DB × List String) {u : String}
    (h : u ∈ uidsOf (syncLoop dbMap now dry st cs).1.events) :
    u ∈ uidsOf st.1.events ∨ u ∈ candUids cs := by
  induction cs generalizing st with
  | nil => exact Or.inl h
  | cons c cs' ih =>
      rw [syncLoop, List.foldl_cons] at h
      rcases ih _ h with h' | h'
      · rcases processOne_rows_source h' with h'' | h''
        · exact Or.inl h''
        · exact Or.inr (by simp [candUids, h''])
      · exact Or.inr (by simp [candUids]; exact Or.inr (by simpa [candUids] using h'))

theorem canduid_mem_uids_dbMap {dbMap : List EventRow} {c : Candidate} {r0 : EventRow}
    (hfind : dbMap.find? (fun r => r.uid = candUid c) = some r0) :
    candUid c ∈ uidsOf dbMap := by
  have h1 := List.mem_of_find?_eq_some hfind
  have h2 := List.find?_some hfind
  simp only [decide_eq_true_eq] at h2
  exact mem_uidsOf.2 ⟨r0, h1, h2⟩

theorem canduid_not_mem_of_find?_none {dbMap : List EventRow} {c : Candidate}
    (hfind : dbMap.find? (fun r => r.uid = candUid c) = none) :
    candUid c ∉ uidsOf dbMap := by
  intro hmem
  rcases mem_uidsOf.1 hmem with ⟨r, hr, he⟩
  have := List.find?_eq_none.1 hfind r hr
  simp only [decide_eq_true_eq] at this
  exact this he

theorem syncLoop_cand_present {dbMap : List EventRow} {now : String} {dry : Bool}
    (cs : List Candidate) (st : DB × List String)
    (hsnap : ∀ v ∈ uidsOf dbMap, v ∈ uidsOf st.1.events) (hdry : dry = false) :
    ∀ c ∈ cs, candUid c ∈ uidsOf (syncLoop dbMap now dry st cs).1.events := by
  induction cs generalizing st with
  | nil => intro c hc; cases hc
  | cons c cs' ih =>
      intro c' hc'
      rw [syncLoop, List.foldl_cons]
      rcases List.mem_cons.1 hc' with rfl | hmem
      · -- the head candidate's uid is present right after its own step
        have hhead : candUid c' ∈ uidsOf (processOne dbMap now dry st c').1.events := by
          unfold processOne
          split
          · rename_i r0 hfind
            have := hsnap _ (canduid_mem_uids_dbMap hfind)
            split
            · exact this
            · rw [uidsOf_updateRows st.1.events (candUid c') (refreshRow now c'.mlink) (fun r => rfl)]
              exact this
          · split
            · rw [hdry]
              simp only [Bool.false_eq_true, if_false]
              exact uid_mem_insertOrReplace _ _
            · rw [hdry]
              simp only [Bool.false_eq_true, if_false]
              exact uid_mem_insertOrReplace _ _
        exact uids_mono_syncLoop cs' _ hhead
      · exact ih _ (fun v hv => uids_mono_processOne (hsnap v hv)) c' hmem

-- ===== Helper lemmas: whole-pass facts =====

theorem process_and_sync_wet (C : List Candidate) (S : DB) (now : String) (dry : Bool) :
    process_and_sync C S now dry false
      = removePass S.events now dry (syncLoop S.events now dry (S, []) C).2
          (syncLoop S.events now dry (S, []) C).1 := rfl

theorem process_and_sync_lookback (C : List Candidate) (S : DB) (now : String) (dry : Bool) :
    process_and_sync C S now dry true = (syncLoop S.events now dry (S, []) C).1 := rfl

theorem processOne_changes_found {dbMap : List EventRow} {now : String} {dry : Bool}
    {st : DB × List String} {c : Candidate} {r0 : EventRow}
    (hfind : dbMap.find? (fun r => r.uid = candUid c) = some r0) :
    (processOne dbMap now dry st c).1.changes = st.1.changes := by
  unfold processOne
  rw [hfind]
  by_cases hd : dry = true <;> simp [hd]

theorem find?_of_uid_mem {dbMap : List EventRow} {c : Candidate}
    (h : candUid c ∈ uidsOf dbMap) :
    ∃ r0, dbMap.find? (fun r => r.uid = candUid c) = some r0 := by
  rcases mem_uidsOf.1 h with ⟨r, hr, he⟩
  cases hfind : dbMap.find? (fun r => r.uid = candUid c) with
  | none =>
      have := List.find?_eq_none.1 hfind r hr
      simp [he] at this
  | some r0 => exact ⟨r0, rfl⟩

theorem syncLoop_changes_refresh {dbMap : List EventRow} {now : String}
    (cs : List Candidate) (st : DB × List String)
    (h : ∀ c ∈ cs, candUid c ∈ uidsOf dbMap) :
    (syncLoop dbMap now false st cs).1.changes = st.1.changes := by
  induction cs generalizing st with
  | nil => rfl
  | cons c cs' ih =>
      rw [syncLoop, List.foldl_cons]
      obtain ⟨r0, hfind⟩ := find?_of_uid_mem (h c (List.mem_cons_self c cs'))
      rw [show List.foldl (processOne dbMap now false) (processOne dbMap now false st c) cs'
          = syncLoop dbMap now false (processOne dbMap now false st c) cs' from rfl,
        ih _ (fun c' hc' => h c' (List.mem_cons_of_mem c hc')),
        processOne_changes_found hfind]

theorem cand_present_after_sync (S : DB) (C : List Candidate) (now : String) :
    ∀ c ∈ C, candUid c ∈ uidsOf (process_and_sync C S now false false).events := by
  intro c hc
  rw [process_and_sync_wet]
  rw [show (removePass S.events now false (syncLoop S.events now false (S, []) C).2
      (syncLoop S.events now false (S, []) C).1) = removePass S.events now false
      (syncLoop S.events now false (S, []) C).2 (syncLoop S.events now false (S, []) C).1 from rfl]
  rw [uidsOf_removePass]
  exact syncLoop_cand_present C (S, []) (fun v hv => hv) rfl c hc

theorem contains_eq_false_of_not_mem {l : List String} {a : String} (h : a ∉ l) :
    l.contains a = false := by
  rw [Bool.eq_false_iff]
  intro hc
  exact h (List.elem_iff.mp hc)

theorem active_implies_observed (S : DB) (C : List Candidate) (now : String)
    (hn : (uidsOf S.events).Nodup) :
    ∀ r ∈ (process_and_sync C S now false false).events, r.deleted = false →
      r.uid ∈ candUids C := by
  intro r hr hact
  by_contra hmem
  have hsnd : (syncLoop S.events now false (S, []) C).2 = candUids C := by
    rw [syncLoop_snd]
    simp
  rw [process_and_sync_wet] at hr
  have hru : r.uid ∈ uidsOf (syncLoop S.events now false (S, []) C).1.events := by
    have : r.uid ∈ uidsOf (removePass S.events now false
        (syncLoop S.events now false (S, []) C).2
        (syncLoop S.events now false (S, []) C).1).events :=
      mem_uidsOf.2 ⟨r, hr, rfl⟩
    rwa [uidsOf_removePass] at this
  rcases syncLoop_rows_source C _ hru with hsrc | hsrc
  swap
  · exact hmem hsrc
  obtain ⟨r0, hr0, he⟩ := mem_uidsOf.1 hsrc
  by_cases hd0 : r0.deleted = true
  · -- the snapshot row was already retired and its uid is never observed
    have hc : ∀ c ∈ C, candUid c ≠ r0.uid := by
      intro c hcm heq
      exact hmem (by rw [← he, ← heq]; exact List.mem_map.2 ⟨c, hcm, rfl⟩)
    have h1 := @allDeletedAt_syncLoop S.events now false r0.uid C (S, []) hc
      (allDeletedAt_init hn hr0 hd0)
    have h2 := @allDeletedAt_removePass now false (syncLoop S.events now false (S, []) C).2
      r0.uid S.events (syncLoop S.events now false (S, []) C).1 h1
    have := h2 r hr he.symm
    simp [this] at hact
  · -- the snapshot row was active and unobserved: the removal loop retires it
    have hd0' : r0.deleted = false := by
      cases h : r0.deleted
      · rfl
      · exact absurd h hd0
    have hcu : (syncLoop S.events now false (S, []) C).2.contains r0.uid = false := by
      rw [hsnd]
      apply contains_eq_false_of_not_mem
      intro hmem'
      exact hmem (he ▸ hmem')
    have h2 := @allDeletedAt_removePass_establish now
      (syncLoop S.events now false (S, []) C).2 S.events
      (syncLoop S.events now false (S, []) C).1 r0 hr0 hd0' hcu
    have := h2 r hr he.symm
    simp [this] at hact

-- ===== Helper lemmas: rows outside the snapshot stay active =====

theorem mem_of_mem_sameTitleActive {dbMap : List EventRow} {c : Candidate}
    {old : EventRow} (h : old ∈ sameTitleActive dbMap c) : old ∈ dbMap :=
  (List.mem_filter.1 h).1

theorem props_of_mem_sameTitleActive {dbMap : List EventRow} {c : Candidate}
    {old : EventRow} (h : old ∈ sameTitleActive dbMap c) :
    old.title = some c.title ∧ old.deleted = false := by
  have := (List.mem_filter.1 h).2
  simpa using this

theorem activeOutside_retire {dbMap es : List EventRow} {v : String} {now : String}
    (hv : v ∈ uidsOf dbMap)
    (h : ∀ r ∈ es, r.uid ∉ uidsOf dbMap → r.deleted = false) :
    ∀ r' ∈ updateRows es v (retireRow now), r'.uid ∉ uidsOf dbMap → r'.deleted = false := by
  intro r' hr' hu
  rcases exists_of_mem_updateRows hr' with ⟨r, hr, rfl⟩
  by_cases hm : r.uid = v
  · rw [if_pos hm] at hu ⊢
    exact absurd (show (retireRow now r).uid ∈ uidsOf dbMap by rw [uid_retireRow, hm]; exact hv) hu
  · rw [if_neg hm] at hu ⊢
    exact h r hr hu

theorem activeOutside_refresh {dbMap es : List EventRow} {v : String} {now : String}
    {ml : Option String}
    (h : ∀ r ∈ es, r.uid ∉ uidsOf dbMap → r.deleted = false) :
    ∀ r' ∈ updateRows es v (refreshRow now ml), r'.uid ∉ uidsOf dbMap → r'.deleted = false := by
  intro r' hr' hu
  rcases exists_of_mem_updateRows hr' with ⟨r, hr, rfl⟩
  by_cases hm : r.uid = v
  · rw [if_pos hm]
    rfl
  · rw [if_neg hm] at hu ⊢
    exact h r hr hu

theorem activeOutside_insert {dbMap es : List EventRow} {row : EventRow}
    (hrow : row.deleted = false)
    (h : ∀ r ∈ es, r.uid ∉ uidsOf dbMap → r.deleted = false) :
    ∀ r' ∈ insertOrReplace es row, r'.uid ∉ uidsOf dbMap → r'.deleted = false := by
  intro r' hr' hu
  rcases mem_insertOrReplace_elim hr' with ⟨hr, _⟩ | rfl
  · exact h r' hr hu
  · exact hrow

theorem activeOutside_retireFold {dbMap : List EventRow} {now : String}
    (olds : List EventRow) (db : DB) (holds : ∀ old ∈ olds, old.uid ∈ uidsOf dbMap)
    (h : ∀ r ∈ db.events, r.uid ∉ uidsOf dbMap → r.deleted = false) :
    ∀ r' ∈ (olds.foldl (retireStep now) db).events,
      r'.uid ∉ uidsOf dbMap → r'.deleted = false := by
  induction olds generalizing db with
  | nil => exact h
  | cons o os ih =>
      rw [List.foldl_cons]
      exact ih _ (fun old hold => holds old (List.mem_cons_of_mem o hold))
        (activeOutside_retire (holds o (List.mem_cons_self o os)) h)

theorem activeOutside_processOne {dbMap : List EventRow} {now : String} {dry : Bool}
    {st : DB × List String} {c : Candidate}
    (h : ∀ r ∈ st.1.events, r.uid ∉ uidsOf dbMap → r.deleted = false) :
    ∀ r' ∈ (processOne dbMap now dry st c).1.events,
      r'.uid ∉ uidsOf dbMap → r'.deleted = false := by
  unfold processOne
  split
  · split
    · exact h
    · exact activeOutside_refresh h
  · split
    · split
      · exact h
      · exact activeOutside_insert rfl h
    · split
      · exact h
      · exact activeOutside_insert rfl
          (activeOutside_retireFold _ st.1
            (fun old hold => mem_uidsOf.2
              ⟨old, mem_of_mem_sameTitleActive hold, rfl⟩) h)

theorem activeOutside_syncLoop {dbMap : List EventRow} {now : String} {dry : Bool}
    (cs : List Candidate) (st : DB × List String)
    (h : ∀ r ∈ st.1.events, r.uid ∉ uidsOf dbMap → r.deleted = false) :
    ∀ r' ∈ (syncLoop dbMap now dry st cs).1.events,
      r'.uid ∉ uidsOf dbMap → r'.deleted = false := by
  induction cs generalizing st with
  | nil => exact h
  | cons c cs' ih =>
      rw [syncLoop, List.foldl_cons]
      exact ih _ (activeOutside_processOne h)

theorem activeOutside_removePass {dbMap : List EventRow} {now : String} {dry : Bool}
    {cu : List String} (rows : List EventRow) (db : DB)
    (hrows : ∀ row ∈ rows, row.uid ∈ uidsOf dbMap)
    (h : ∀ r ∈ db.events, r.uid ∉ uidsOf dbMap → r.deleted = false) :
    ∀ r' ∈ (rows.foldl (removeStep now dry cu) db).events,
      r'.uid ∉ uidsOf dbMap → r'.deleted = false := by
  induction rows generalizing db with
  | nil => exact h
  | cons row rows' ih =>
      rw [List.foldl_cons]
      refine ih _ (fun row' hrow' => hrows row' (List.mem_cons_of_mem row hrow')) ?_
      unfold removeStep
      split
      · split
        · exact h
        · exact activeOutside_retire (hrows row (List.mem_cons_self row rows')) h
      · exact h

-- ===== Helper lemmas: frame preservation for C5 =====

theorem frameAt_updateRows_ne {row : EventRow} {es : List EventRow} {v : String}
    {f : EventRow → EventRow} (hf : ∀ r, (f r).uid = r.uid) (hv : v ≠ row.uid)
    (h : FrameAt row es) : FrameAt row (updateRows es v f) := by
  obtain ⟨⟨w, hw, hwu⟩, hall⟩ := h
  constructor
  · exact ⟨w, mem_updateRows_of_ne hw (by rw [hwu]; exact fun he => hv he.symm), hwu⟩
  · intro r' hr' he
    rcases exists_of_mem_updateRows hr' with ⟨r, hr, rfl⟩
    by_cases hm : r.uid = v
    · rw [if_pos hm, hf r] at he
      exact absurd (hm.symm.trans he) hv
    · rw [if_neg hm] at he ⊢
      exact hall r hr he

theorem frameAt_refresh_self {row : EventRow} {es : List EventRow} {now : String}
    {ml : Option String} (h : FrameAt row es) :
    FrameAt row (updateRows es row.uid (refreshRow now ml)) := by
  obtain ⟨⟨w, hw, hwu⟩, hall⟩ := h
  constructor
  · exact ⟨refreshRow now ml w, mem_updateRows_self hw hwu, by rw [uid_refreshRow]; exact hwu⟩
  · intro r' hr' he
    rcases exists_of_mem_updateRows hr' with ⟨r, hr, rfl⟩
    by_cases hm : r.uid = row.uid
    · rw [if_pos hm]
      obtain ⟨_, ht, hs, hee, hf⟩ := hall r hr hm
      exact ⟨rfl, ht, hs, hee, hf⟩
    · rw [if_neg hm] at he ⊢
      exact hall r hr he

theorem frameAt_insertOrReplace_ne {row : EventRow} {es : List EventRow}
    {nrow : EventRow} (hv : nrow.uid ≠ row.uid) (h : FrameAt row es) :
    FrameAt row (insertOrReplace es nrow) := by
  obtain ⟨⟨w, hw, hwu⟩, hall⟩ := h
  constructor
  · exact ⟨w, mem_insertOrReplace_of_ne hw (by rw [hwu]; exact fun he => hv he.symm), hwu⟩
  · intro r' hr' he
    rcases mem_insertOrReplace_elim hr' with ⟨hr, _⟩ | rfl
    · exact hall r' hr he
    · exact absurd he hv

theorem frameAt_retireFold_ne {row : EventRow} {now : String}
    (olds : List EventRow) (db : DB) (holds : ∀ old ∈ olds, old.uid ≠ row.uid)
    (h : FrameAt row db.events) :
    FrameAt row ((olds.foldl (retireStep now) db).events) := by
  induction olds generalizing db with
  | nil => exact h
  | cons o os ih =>
      rw [List.foldl_cons]
      exact ih _ (fun old hold => holds old (List.mem_cons_of_mem o hold))
        (frameAt_updateRows_ne (fun r => rfl) (holds o (List.mem_cons_self o os)) h)

theorem frameAt_processOne {dbMap : List EventRow} {now : String} {dry : Bool}
    {st : DB × List String} {c : Candidate} {row : EventRow}
    (hn : (uidsOf dbMap).Nodup) (hrow : row ∈ dbMap)
    (hns : row.title = some c.title → candUid c ∈ uidsOf dbMap)
    (h : FrameAt row st.1.events) :
    FrameAt row (processOne dbMap now dry st c).1.events := by
  unfold processOne
  split
  · split
    · exact h
    · by_cases hc : candUid c = row.uid
      · rw [hc]
        exact frameAt_refresh_self h
      · exact frameAt_updateRows_ne (fun r => rfl) hc h
  · rename_i hfind
    have hcnotin : candUid c ∉ uidsOf dbMap := canduid_not_mem_of_find?_none hfind
    have hcne : candUid c ≠ row.uid := fun he =>
      hcnotin (he ▸ mem_uidsOf.2 ⟨row, hrow, rfl⟩)
    split
    · split
      · exact h
      · exact frameAt_insertOrReplace_ne hcne h
    · split
      · exact h
      · refine frameAt_insertOrReplace_ne hcne (frameAt_retireFold_ne _ st.1 ?_ h)
        intro old hold heq
        have h1 := props_of_mem_sameTitleActive hold
        have hom := mem_of_mem_sameTitleActive hold
        have hor : old = row :=
          List.inj_on_of_nodup_map (by simpa [uidsOf] using hn) hom hrow heq
        exact hcnotin (hns (by rw [← hor]; exact h1.1))

theorem frameAt_syncLoop {dbMap : List EventRow} {now : String} {dry : Bool}
    (cs : List Candidate) (st : DB × List String) {row : EventRow}
    (hn : (uidsOf dbMap).Nodup) (hrow : row ∈ dbMap)
    (hns : ∀ c ∈ cs, row.title = some c.title → candUid c ∈ uidsOf dbMap)
    (h : FrameAt row st.1.events) :
    FrameAt row (syncLoop dbMap now dry st cs).1.events := by
  induction cs generalizing st with
  | nil => exact h
  | cons c cs' ih =>
      rw [syncLoop, List.foldl_cons]
      exact ih _ (fun c' hc' => hns c' (List.mem_cons_of_mem c hc'))
        (frameAt_processOne hn hrow (hns c (List.mem_cons_self c cs')) h)

-- ===== Claim theorems =====

/-- Claim C1, counterexample: the claim that a stored event with
`deleted = 1` is never set back to `deleted = 0` by `process_and_sync` is
false.  A store holds one retired event; a candidate list containing a
candidate with exactly that identity makes the refresh branch
(`UPDATE events SET last_seen=?, deleted=0, ...`) reactivate it. -/
theorem C1_counterexample_refresh_reactivates :
    (⟨candUid ⟨"T", some "2025-01-01T09:00:00", some "2025-01-01T10:00:00", none⟩,
      some "T", some "2025-01-01T09:00:00", some "2025-01-01T10:00:00",
      some "t0", some "t0", true, none⟩ : EventRow).deleted = true ∧
    ((process_and_sync
        [⟨"T", some "2025-01-01T09:00:00", some "2025-01-01T10:00:00", none⟩]
        ⟨[⟨candUid ⟨"T", some "2025-01-01T09:00:00", some "2025-01-01T10:00:00", none⟩,
           some "T", some "2025-01-01T09:00:00", some "2025-01-01T10:00:00",
           some "t0", some "t0", true, none⟩], []⟩
        "t1" false false).events.map (fun r => (r.uid, r.deleted)))
      = [(candUid ⟨"T", some "2025-01-01T09:00:00", some "2025-01-01T10:00:00", none⟩,
          false)] := by
  exact ⟨rfl, by decide⟩

/-- Claim C1 (amended): retirement is monotone only as long as the retired
event's identity is not observed again: for every stored event whose retired
flag is true, a `process_and_sync` call (any dry_run/partial_window values)
whose candidate list contains no candidate with that event's identity leaves
the flag true; observing the exact identity again reactivates the event. -/
theorem C1_retired_stays_retired_when_identity_unobserved
    (S : DB) (C : List Candidate) (now : String) (dryRun lookbackMode : Bool)
    (row : EventRow) (hn : (uidsOf S.events).Nodup) (hrow : row ∈ S.events)
    (hdel : row.deleted = true) (hobs : ∀ c ∈ C, candUid c ≠ row.uid) :
    ∀ r' ∈ (process_and_sync C S now dryRun lookbackMode).events,
      r'.uid = row.uid → r'.deleted = true := by
  have h0 : AllDeletedAt S.events row.uid := allDeletedAt_init hn hrow hdel
  have h1 := @allDeletedAt_syncLoop S.events now dryRun row.uid C (S, []) hobs h0
  cases lookbackMode with
  | true =>
      rw [process_and_sync_lookback]
      exact h1
  | false =>
      rw [process_and_sync_wet]
      exact @allDeletedAt_removePass now dryRun
        (syncLoop S.events now dryRun (S, []) C).2 row.uid S.events
        (syncLoop S.events now dryRun (S, []) C).1 h1

/-- Witness for C1 at a concrete input: one retired stored row, one candidate
with a different identity; the row stays retired. -/
theorem C1_witness :
    (uidsOf [(⟨"u0", some "T", none, none, none, none, true, none⟩ : EventRow)]).Nodup ∧
    ∀ r' ∈ (process_and_sync [⟨"X", none, none, none⟩]
        ⟨[⟨"u0", some "T", none, none, none, none, true, none⟩], []⟩
        "t1" false false).events, r'.uid = "u0" → r'.deleted = true :=
  ⟨by decide,
   C1_retired_stays_retired_when_identity_unobserved
     ⟨[⟨"u0", some "T", none, none, none, none, true, none⟩], []⟩
     [⟨"X", none, none, none⟩] "t1" false false
     ⟨"u0", some "T", none, none, none, none, true, none⟩
     (by decide) (by decide) rfl (by decide)⟩

/-- Claim C5: with partial_window (lookback_mode) = true and dry_run = false,
an active stored event that no candidate supersedes by title (every candidate
sharing its title already has its identity stored) keeps its identity in the
table, stays active, and keeps title, start, end and first_seen unchanged;
only last_seen, the retired flag and the link can be refreshed.  In
particular no active event is retired merely for being absent from the
candidate list. -/
theorem C5_partial_window_preserves_active_events
    (S : DB) (C : List Candidate) (now : String) (row : EventRow)
    (hn : (uidsOf S.events).Nodup) (hrow : row ∈ S.events) (hact : row.deleted = false)
    (hns : ∀ c ∈ C, row.title = some c.title → candUid c ∈ uidsOf S.events) :
    FrameAt row (process_and_sync C S now false true).events := by
  rw [process_and_sync_lookback]
  apply frameAt_syncLoop C (S, []) hn hrow hns
  refine ⟨⟨row, hrow, rfl⟩, ?_⟩
  intro r' hr' he
  have hr'' : r' = row :=
    List.inj_on_of_nodup_map (by simpa [uidsOf] using hn) hr' hrow he
  rw [hr'']
  exact ⟨hact, rfl, rfl, rfl, rfl⟩

/-- Witness for C5 at a concrete input: one active stored row; the candidate
list re-observes exactly its identity (a same-title candidate whose identity
is stored), plus an unrelated candidate absent from the store; the row stays
active with its fields framed. -/
theorem C5_witness :
    (uidsOf [(⟨candUid ⟨"T", some "s", some "e", some "L"⟩, some "T", some "s", some "e",
       some "f0", some "l0", false, none⟩ : EventRow)]).Nodup ∧
    FrameAt
      ⟨candUid ⟨"T", some "s", some "e", some "L"⟩, some "T", some "s", some "e",
       some "f0", some "l0", false, none⟩
      (process_and_sync [⟨"T", some "s", some "e", some "L"⟩, ⟨"U", none, none, none⟩]
        ⟨[⟨candUid ⟨"T", some "s", some "e", some "L"⟩, some "T", some "s", some "e",
           some "f0", some "l0", false, none⟩], []⟩ "t1" false true).events :=
  ⟨by decide,
   C5_partial_window_preserves_active_events
     ⟨[⟨candUid ⟨"T", some "s", some "e", some "L"⟩, some "T", some "s", some "e",
        some "f0", some "l0", false, none⟩], []⟩
     [⟨"T", some "s", some "e", some "L"⟩, ⟨"U", none, none, none⟩] "t1"
     ⟨candUid ⟨"T", some "s", some "e", some "L"⟩, some "T", some "s", some "e",
      some "f0", some "l0", false, none⟩
     (by decide) (by decide) rfl (by decide)⟩

/-- Claim C7: when a candidate's identity is already stored (the snapshot
lookup succeeds), the wet-run step is a pure refresh: it appends no change
record; rows with other uids are untouched; every row with the candidate's
uid keeps title, start, end and first_seen, gets last_seen = now and
deleted = 0, and has its meeting link overwritten with the candidate's link
(whatever it is, including null). -/
theorem C7_refresh_pure (dbMap : List EventRow) (now : String) (db : DB)
    (cu : List String) (c : Candidate) (r0 : EventRow)
    (hfind : dbMap.find? (fun r => r.uid = candUid c) = some r0) :
    (processOne dbMap now false (db, cu) c).1.changes = db.changes ∧
    (∀ r ∈ db.events, r.uid ≠ candUid c →
      r ∈ (processOne dbMap now false (db, cu) c).1.events) ∧
    (∀ r ∈ db.events, r.uid = candUid c →
      (⟨r.uid, r.title, r.start_time, r.end_time, r.first_seen, some now, false, c.mlink⟩ :
        EventRow) ∈ (processOne dbMap now false (db, cu) c).1.events) := by
  have hpe : processOne dbMap now false (db, cu) c
      = ({ db with events := updateRows db.events (candUid c) (refreshRow now c.mlink) },
         cu ++ [candUid c]) := by
    unfold processOne
    rw [hfind]
    rfl
  rw [hpe]
  refine ⟨rfl, ?_, ?_⟩
  · intro r hr hne
    exact mem_updateRows_of_ne hr hne
  · intro r hr he
    exact mem_updateRows_self hr he

/-- Witness for C7 at a concrete input: the stored row is retired and holds a
non-null link; the matching candidate carries a null link.  The refresh
appends no change record and the row reappears active with last_seen = now,
link null, and all other fields unchanged. -/
theorem C7_witness :
    ([(⟨candUid ⟨"T", some "s", some "e", none⟩, some "T", some "s", some "e",
        some "f", some "l", true, some "L"⟩ : EventRow)].find?
      (fun r => r.uid = candUid ⟨"T", some "s", some "e", none⟩)
      = some ⟨candUid ⟨"T", some "s", some "e", none⟩, some "T", some "s", some "e",
          some "f", some "l", true, some "L"⟩) ∧
    (processOne [⟨candUid ⟨"T", some "s", some "e", none⟩, some "T", some "s", some "e",
        some "f", some "l", true, some "L"⟩] "t1" false
      (⟨[⟨candUid ⟨"T", some "s", some "e", none⟩, some "T", some "s", some "e",
          some "f", some "l", true, some "L"⟩], []⟩, [])
      ⟨"T", some "s", some "e", none⟩).1.changes = [] ∧
    (⟨candUid ⟨"T", some "s", some "e", none⟩, some "T", some "s", some "e",
      some "f", some "t1", false, none⟩ : EventRow) ∈
      (processOne [⟨candUid ⟨"T", some "s", some "e", none⟩, some "T", some "s", some "e",
          some "f", some "l", true, some "L"⟩] "t1" false
        (⟨[⟨candUid ⟨"T", some "s", some "e", none⟩, some "T", some "s", some "e",
            some "f", some "l", true, some "L"⟩], []⟩, [])
        ⟨"T", some "s", some "e", none⟩).1.events := by
  refine ⟨by decide, ?_, ?_⟩
  · exact (C7_refresh_pure
      [⟨candUid ⟨"T", some "s", some "e", none⟩, some "T", some "s", some "e",
        some "f", some "l", true, some "L"⟩] "t1"
      ⟨[⟨candUid ⟨"T", some "s", some "e", none⟩, some "T", some "s", some "e",
        some "f", some "l", true, some "L"⟩], []⟩ []
      ⟨"T", some "s", some "e", none⟩
      ⟨candUid ⟨"T", some "s", some "e", none⟩, some "T", some "s", some "e",
        some "f", some "l", true, some "L"⟩ (by decide)).1
  · exact (C7_refresh_pure
      [⟨candUid ⟨"T", some "s", some "e", none⟩, some "T", some "s", some "e",
        some "f", some "l", true, some "L"⟩] "t1"
      ⟨[⟨candUid ⟨"T", some "s", some "e", none⟩, some "T", some "s", some "e",
        some "f", some "l", true, some "L"⟩], []⟩ []
      ⟨"T", some "s", some "e", none⟩
      ⟨candUid ⟨"T", some "s", some "e", none⟩, some "T", some "s", some "e",
        some "f", some "l", true, some "L"⟩ (by decide)).2.2
      ⟨candUid ⟨"T", some "s", some "e", none⟩, some "T", some "s", some "e",
        some "f", some "l", true, some "L"⟩ (by decide) rfl

/-- Claim C10: the same-title supersession check reads only the snapshot
loaded before the loop, and every retirement (supersession or removal) is
keyed on a snapshot uid.  Hence a row whose uid is not in the pre-pass store
— in particular one created for an earlier candidate in this pass — is active
at the end of the pass; two new same-title candidates in one pass both end
the pass active. -/
theorem C10_rows_created_in_pass_end_active
    (S : DB) (C : List Candidate) (now : String) (dryRun lookbackMode : Bool) :
    ∀ r ∈ (process_and_sync C S now dryRun lookbackMode).events,
      r.uid ∉ uidsOf S.events → r.deleted = false := by
  have hbase : ∀ r ∈ (S : DB).events, r.uid ∉ uidsOf S.events → r.deleted = false :=
    fun r hr hu => absurd (mem_uidsOf.2 ⟨r, hr, rfl⟩) hu
  have h1 := @activeOutside_syncLoop S.events now dryRun C (S, []) hbase
  cases lookbackMode with
  | true =>
      rw [process_and_sync_lookback]
      exact h1
  | false =>
      rw [process_and_sync_wet, removePass]
      exact @activeOutside_removePass S.events now dryRun
        (syncLoop S.events now dryRun (S, []) C).2 S.events
        (syncLoop S.events now dryRun (S, []) C).1
        (fun row hrow => mem_uidsOf.2 ⟨row, hrow, rfl⟩) h1

/-- Witness for C10 at a concrete input: two same-title candidates with
different times against an empty store; the row created for the second
candidate is present and active at the end of the pass (so is the first). -/
theorem C10_witness :
    (⟨candUid ⟨"T", some "c", some "d", none⟩, some "T", some "c", some "d",
      some "t", some "t", false, none⟩ : EventRow) ∈
      (process_and_sync [⟨"T", some "a", some "b", none⟩, ⟨"T", some "c", some "d", none⟩]
        ⟨[], []⟩ "t" false false).events ∧
    (⟨candUid ⟨"T", some "a", some "b", none⟩, some "T", some "a", some "b",
      some "t", some "t", false, none⟩ : EventRow).uid ∉ uidsOf ([] : List EventRow) ∧
    (⟨candUid ⟨"T", some "c", some "d", none⟩, some "T", some "c", some "d",
      some "t", some "t", false, none⟩ : EventRow).deleted = false :=
  ⟨by decide, by decide,
   C10_rows_created_in_pass_end_active ⟨[], []⟩
     [⟨"T", some "a", some "b", none⟩, ⟨"T", some "c", some "d", none⟩] "t" false false
     ⟨candUid ⟨"T", some "c", some "d", none⟩, some "T", some "c", some "d",
      some "t", some "t", false, none⟩ (by decide) (by decide)⟩

/-- Claim C6, counterexample: the supersession change record does not carry
the superseded event's pre-retirement link.  The stored row starts with link
"L1"; the first candidate (same identity) refreshes the link to "L2"; the
second candidate (same title, new identity) then supersedes the row, but the
emitted record carries the start-of-pass snapshot link "L1", not the
pre-retirement link "L2". -/
theorem C6_counterexample_snapshot_link_not_preretirement :
    ((process_and_sync
        [⟨"T", some "09", some "10", some "L2"⟩, ⟨"T", some "11", some "12", none⟩]
        ⟨[⟨candUid ⟨"T", some "09", some "10", some "L2"⟩, some "T", some "09", some "10",
           some "t0", some "t0", false, some "L1"⟩], []⟩
        "t1" false false).changes.map (fun ch => (ch.action, ch.meeting_link)))
      = [("updated-old-marked-deleted", some "L1"), ("added (updated)", none)] ∧
    ((syncLoop
        [⟨candUid ⟨"T", some "09", some "10", some "L2"⟩, some "T", some "09", some "10",
          some "t0", some "t0", false, some "L1"⟩] "t1" false
        (⟨[⟨candUid ⟨"T", some "09", some "10", some "L2"⟩, some "T", some "09", some "10",
            some "t0", some "t0", false, some "L1"⟩], []⟩, [])
        [⟨"T", some "09", some "10", some "L2"⟩]).1.events.map (fun r => r.meeting_link))
      = [some "L2"] := by
  exact ⟨by decide, by decide⟩

/-- Claim C6 (amended): for a candidate whose identity is not in the
start-of-pass snapshot and whose title matches at least one snapshot-active
stored event, the wet-run step retires every such event (every table row with
its uid ends the step with `deleted = 1`), emits one
"updated-old-marked-deleted" record per event carrying that event's title,
start, end and link as recorded in the snapshot (which can differ from the
link at the moment of retirement if a refresh in the same pass overwrote it),
and then inserts the new event, active, with an "added (updated)" record. -/
theorem C6_supersession_retires_and_records_snapshot_fields
    (dbMap : List EventRow) (now : String) (db : DB) (cu : List String) (c : Candidate)
    (hfind : dbMap.find? (fun r => r.uid = candUid c) = none)
    (hne : (sameTitleActive dbMap c).isEmpty = false) :
    (processOne dbMap now false (db, cu) c).1.changes
        = db.changes ++ (sameTitleActive dbMap c).map (supersededChange now)
          ++ [mkChange now "added (updated)" (candUid c) (some c.title) c.s_iso c.e_iso c.mlink] ∧
    (∀ old ∈ sameTitleActive dbMap c,
      ∀ r ∈ (processOne dbMap now false (db, cu) c).1.events,
        r.uid = old.uid → r.deleted = true) ∧
    newRow (candUid c) c now ∈ (processOne dbMap now false (db, cu) c).1.events := by
  have hpe : processOne dbMap now false (db, cu) c
      = (⟨insertOrReplace ((sameTitleActive dbMap c).foldl (retireStep now) db).events
            (newRow (candUid c) c now),
          ((sameTitleActive dbMap c).foldl (retireStep now) db).changes ++
            [mkChange now "added (updated)" (candUid c) (some c.title) c.s_iso c.e_iso c.mlink]⟩,
         cu ++ [candUid c]) := by
    unfold processOne
    rw [hfind, hne]
    rfl
  rw [hpe]
  refine ⟨?_, ?_, ?_⟩
  · rw [retireFold_changes]
  · intro old hold r hr he
    have hcne : (newRow (candUid c) c now).uid ≠ old.uid := by
      intro heq
      have heq' : candUid c = old.uid := heq
      exact (canduid_not_mem_of_find?_none hfind)
        (heq'.symm ▸ mem_uidsOf.2 ⟨old, mem_of_mem_sameTitleActive hold, rfl⟩)
    exact allDeletedAt_insertOrReplace hcne
      (allDeletedAt_retireFold_establish _ db hold) r hr he
  · exact self_mem_insertOrReplace _ _

/-- Witness for C6 at a concrete input: one snapshot-active stored event with
the candidate's title; the step retires it, records its snapshot fields, and
inserts the new active event. -/
theorem C6_witness :
    ([(⟨"u1", some "T", some "09", some "10", some "f", some "l", false, some "L1"⟩ :
        EventRow)].find? (fun r => r.uid = candUid ⟨"T", some "11", some "12", some "L2"⟩)
      = none) ∧
    (processOne [⟨"u1", some "T", some "09", some "10", some "f", some "l", false, some "L1"⟩]
        "t1" false
        (⟨[⟨"u1", some "T", some "09", some "10", some "f", some "l", false, some "L1"⟩], []⟩, [])
        ⟨"T", some "11", some "12", some "L2"⟩).1.changes
      = [⟨"t1", "updated-old-marked-deleted", "u1", some "T", some "09", some "10", some "L1"⟩,
         ⟨"t1", "added (updated)", candUid ⟨"T", some "11", some "12", some "L2"⟩,
          some "T", some "11", some "12", some "L2"⟩] := by
  refine ⟨by decide, ?_⟩
  have h := C6_supersession_retires_and_records_snapshot_fields
    [⟨"u1", some "T", some "09", some "10", some "f", some "l", false, some "L1"⟩] "t1"
    ⟨[⟨"u1", some "T", some "09", some "10", some "f", some "l", false, some "L1"⟩], []⟩ []
    ⟨"T", some "11", some "12", some "L2"⟩ (by decide) (by decide)
  rw [h.1]
  decide

/-- Claim C2, counterexample: replaying the same candidate list is not
idempotent on the active set.  The store holds the event for the first
candidate; in the first pass the second candidate (same title, new identity)
supersedes it, retiring it; in the second pass the first candidate's refresh
reactivates it, so the active set after the second pass differs from the
active set after the first. -/
theorem C2_counterexample_active_set_differs :
    ((process_and_sync
        [⟨"T", some "09", some "10", none⟩, ⟨"T", some "11", some "12", none⟩]
        ⟨[⟨candUid ⟨"T", some "09", some "10", none⟩, some "T", some "09", some "10",
           some "t0", some "t0", false, none⟩], []⟩
        "t1" false false).events.map (fun r => r.deleted)) = [true, false] ∧
    ((process_and_sync
        [⟨"T", some "09", some "10", none⟩, ⟨"T", some "11", some "12", none⟩]
        (process_and_sync
          [⟨"T", some "09", some "10", none⟩, ⟨"T", some "11", some "12", none⟩]
          ⟨[⟨candUid ⟨"T", some "09", some "10", none⟩, some "T", some "09", some "10",
             some "t0", some "t0", false, none⟩], []⟩
          "t1" false false)
        "t2" false false).events.map (fun r => r.deleted)) = [false, false] := by
  exact ⟨by decide, by decide⟩

/-- Claim C2 (amended): replaying an unchanged candidate list against the
store produced by a full wet pass appends zero new change records (every
candidate hits the refresh branch and the removal loop finds nothing to
retire).  The active set, however, need not be identical: a refresh in the
second pass reactivates an event that the first pass retired by same-pass
supersession. -/
theorem C2_second_sync_appends_no_changes (S : DB) (C : List Candidate)
    (now now' : String) (hn : (uidsOf S.events).Nodup) :
    (process_and_sync C (process_and_sync C S now false false) now' false false).changes
      = (process_and_sync C S now false false).changes := by
  have hpresent : ∀ c ∈ C, candUid c ∈ uidsOf (process_and_sync C S now false false).events :=
    cand_present_after_sync S C now
  have hactive : ∀ r ∈ (process_and_sync C S now false false).events,
      r.deleted = false → r.uid ∈ candUids C :=
    active_implies_observed S C now hn
  rw [process_and_sync_wet C (process_and_sync C S now false false) now' false,
    removePass_changes,
    syncLoop_changes_refresh C ((process_and_sync C S now false false), []) hpresent]
  have h2 : (process_and_sync C S now false false).events.filter
      (fun r => r.deleted = false &&
        !((syncLoop (process_and_sync C S now false false).events now' false
            ((process_and_sync C S now false false), []) C).2.contains r.uid)) = [] := by
    rw [List.filter_eq_nil_iff]
    intro r hr
    rw [syncLoop_snd]
    simp only [List.nil_append, Bool.and_eq_true, Bool.not_eq_true', decide_eq_true_eq,
      not_and]
    intro hdel
    rw [Bool.not_eq_false]
    exact List.elem_iff.mpr (hactive r hr hdel)
  rw [h2]
  simp

/-- Witness for C2 at a concrete input: the counterexample store replayed
twice; the second pass appends zero new change records. -/
theorem C2_witness :
    (uidsOf [(⟨candUid ⟨"T", some "09", some "10", none⟩, some "T", some "09", some "10",
       some "t0", some "t0", false, none⟩ : EventRow)]).Nodup ∧
    (process_and_sync
        [⟨"T", some "09", some "10", none⟩, ⟨"T", some "11", some "12", none⟩]
        (process_and_sync
          [⟨"T", some "09", some "10", none⟩, ⟨"T", some "11", some "12", none⟩]
          ⟨[⟨candUid ⟨"T", some "09", some "10", none⟩, some "T", some "09", some "10",
             some "t0", some "t0", false, none⟩], []⟩
          "t1" false false)
        "t2" false false).changes
      = (process_and_sync
          [⟨"T", some "09", some "10", none⟩, ⟨"T", some "11", some "12", none⟩]
          ⟨[⟨candUid ⟨"T", some "09", some "10", none⟩, some "T", some "09", some "10",
             some "t0", some "t0", false, none⟩], []⟩
          "t1" false false).changes :=
  ⟨by decide,
   C2_second_sync_appends_no_changes
     ⟨[⟨candUid ⟨"T", some "09", some "10", none⟩, some "T", some "09", some "10",
        some "t0", some "t0", false, none⟩], []⟩
     [⟨"T", some "09", some "10", none⟩, ⟨"T", some "11", some "12", none⟩]
     "t1" "t2" (by decide)⟩

/-- Claim C3, counterexample: an event retired by supersession earlier in the
same non-partial pass does receive a "removed" record.  The store holds one
active event; the only candidate has the same title but a new identity, so
the event is first retired with an "updated-old-marked-deleted" record; the
end-of-pass loop then tests the snapshot's deleted flag (still 0) and, since
the uid was never observed, emits a second, "removed", record for it. -/
theorem C3_counterexample_superseded_also_removed :
    ((process_and_sync [⟨"T", some "11", some "12", none⟩]
        ⟨[⟨"u1", some "T", some "09", some "10", some "t0", some "t0", false, none⟩], []⟩
        "t1" false false).changes.map (fun ch => (ch.action, ch.uid)))
      = [("updated-old-marked-deleted", "u1"),
         ("added (updated)", candUid ⟨"T", some "11", some "12", none⟩),
         ("removed", "u1")] := by
  decide

/-- Claim C3 (amended): in a non-partial wet pass the "removed" records among
the newly appended change records are exactly one per snapshot row that was
active in the start-of-pass snapshot and whose uid was not observed during
the pass, in snapshot order, each capturing that row's snapshot title, start,
end and link; every such row ends the pass retired.  A row already retired in
the snapshot gets no "removed" record, but a row retired by supersession
during the pass (snapshot flag still active) and unobserved does get one, in
addition to its supersession record. -/
theorem C3_removed_records_exactly_snapshot_active_unobserved
    (S : DB) (C : List Candidate) (now : String) :
    ((process_and_sync C S now false false).changes.drop S.changes.length).filter
        (fun ch => ch.action = "removed")
      = (S.events.filter (fun r => r.deleted = false && !((candUids C).contains r.uid))).map
          (removedChange now) ∧
    ∀ r0 ∈ S.events, r0.deleted = false → r0.uid ∉ candUids C →
      ∀ r ∈ (process_and_sync C S now false false).events,
        r.uid = r0.uid → r.deleted = true := by
  constructor
  · rw [process_and_sync_wet, removePass_changes]
    obtain ⟨l, hl, hnr⟩ := syncLoop_changes_shape S.events now false C (S, [])
    rw [hl, syncLoop_snd]
    simp only [List.nil_append]
    rw [List.append_assoc, List.drop_left, List.filter_append]
    have hfl : l.filter (fun ch => ch.action = "removed") = [] := by
      rw [List.filter_eq_nil_iff]
      intro ch hch
      simpa using hnr ch hch
    have hfm : ((S.events.filter
          (fun r => r.deleted = false && !((candUids C).contains r.uid))).map
            (removedChange now)).filter (fun ch => ch.action = "removed")
        = (S.events.filter
            (fun r => r.deleted = false && !((candUids C).contains r.uid))).map
              (removedChange now) := by
      rw [List.filter_eq_self]
      intro ch hch
      rcases List.mem_map.1 hch with ⟨r, _, rfl⟩
      simp [removedChange, mkChange]
    rw [hfl, hfm, List.nil_append]
  · intro r0 hr0 hd hnm r hr he
    rw [process_and_sync_wet] at hr
    have hcu : (syncLoop S.events now false (S, []) C).2.contains r0.uid = false := by
      rw [syncLoop_snd]
      simp only [List.nil_append]
      exact contains_eq_false_of_not_mem hnm
    exact @allDeletedAt_removePass_establish now
      (syncLoop S.events now false (S, []) C).2 S.events
      (syncLoop S.events now false (S, []) C).1 r0 hr0 hd hcu r hr he

/-- Witness for C3 at a concrete input: one active stored row, empty
candidate list; the pass emits exactly one "removed" record capturing the
row's snapshot fields, and the row ends the pass retired. -/
theorem C3_witness :
    ((process_and_sync []
        ⟨[⟨"u1", some "T", some "09", some "10", some "f", some "l", false, some "L"⟩], []⟩
        "t1" false false).changes.drop 0).filter (fun ch => ch.action = "removed")
      = [⟨"t1", "removed", "u1", some "T", some "09", some "10", some "L"⟩] ∧
    (⟨"u1", some "T", some "09", some "10", some "f", some "t1", true, some "L"⟩ : EventRow).deleted
      = true := by
  constructor
  · exact ((C3_removed_records_exactly_snapshot_active_unobserved
      ⟨[⟨"u1", some "T", some "09", some "10", some "f", some "l", false, some "L"⟩], []⟩
      [] "t1").1).trans (by decide)
  · exact (C3_removed_records_exactly_snapshot_active_unobserved
      ⟨[⟨"u1", some "T", some "09", some "10", some "f", some "l", false, some "L"⟩], []⟩
      [] "t1").2
      ⟨"u1", some "T", some "09", some "10", some "f", some "l", false, some "L"⟩
      (by decide) rfl (by decide)
      ⟨"u1", some "T", some "09", some "10", some "f", some "t1", true, some "L"⟩
      (by decide) rfl

theorem append_pipes_inj : ∀ (xs zs ys ws : List Char), '|' ∉ xs → '|' ∉ zs →
    xs ++ '|' :: '|' :: ys = zs ++ '|' :: '|' :: ws → xs = zs ∧ ys = ws := by
  intro xs
  induction xs with
  | nil =>
      intro zs ys ws _ hz h
      cases zs with
      | nil => simpa using h
      | cons b zs' =>
          exfalso
          simp only [List.nil_append, List.cons_append, List.cons.injEq] at h
          exact hz (by rw [h.1]; exact List.mem_cons_self b zs')
  | cons a xs' ih =>
      intro zs ys ws hx hz h
      cases zs with
      | nil =>
          exfalso
          simp only [List.nil_append, List.cons_append, List.cons.injEq] at h
          exact hx (by rw [← h.1]; exact List.mem_cons_self a xs')
      | cons b zs' =>
          simp only [List.cons_append, List.cons.injEq] at h
          obtain ⟨hab, h2⟩ := h
          obtain ⟨h3, h4⟩ := ih zs' ys ws (fun hm => hx (List.mem_cons_of_mem a hm))
            (fun hm => hz (List.mem_cons_of_mem b hm)) h2
          exact ⟨by rw [hab, h3], h4⟩

/-- Claim C4, counterexample: the delimiter "||" of `uid_for` can occur
inside a field, so two distinct (title, start, end) triples can produce the
same delimiter-joined digest input: ("a||b", "c", "d") and ("a", "b", "c||d")
both join to "a||b||c||d". -/
theorem C4_counterexample_delimiter_collision :
    uid_for (some "a||b") (some "c") (some "d")
      = uid_for (some "a") (some "b") (some "c||d") ∧
    ((some "a||b" : Option String), (some "c" : Option String), (some "d" : Option String))
      ≠ (some "a", some "b", some "c||d") := by
  exact ⟨by decide, by decide⟩

/-- Claim C4 (amended): nothing guarantees the delimiter stays out of the
fields, so the joined encoding is not injective in general; but restricted to
triples whose (defaulted) fields contain no '|' character at all, distinct
triples always produce distinct delimiter-joined digest inputs (the last
field needs no restriction). -/
theorem C4_uid_injective_on_pipe_free_fields (t₁ s₁ e₁ t₂ s₂ e₂ : String)
    (ht₁ : '|' ∉ t₁.data) (hs₁ : '|' ∉ s₁.data)
    (ht₂ : '|' ∉ t₂.data) (hs₂ : '|' ∉ s₂.data)
    (h : uid_for (some t₁) (some s₁) (some e₁) = uid_for (some t₂) (some s₂) (some e₂)) :
    t₁ = t₂ ∧ s₁ = s₂ ∧ e₁ = e₂ := by
  have hd := congrArg String.data h
  simp only [uid_for, Option.getD_some, String.data_append, List.append_assoc] at hd
  simp only [List.cons_append, List.nil_append] at hd
  obtain ⟨h1, hrest⟩ := append_pipes_inj _ _ _ _ ht₁ ht₂ hd
  obtain ⟨h2, h3⟩ := append_pipes_inj _ _ _ _ hs₁ hs₂ hrest
  exact ⟨String.ext h1, String.ext h2, String.ext h3⟩

/-- Witness for C4 at a concrete input: pipe-free fields with equal joined
encodings force equal fields. -/
theorem C4_witness :
    ('|' ∉ "a".data) ∧ ('|' ∉ "b".data) ∧
    ("a" : String) = "a" ∧ ("b" : String) = "b" ∧ ("c" : String) = "c" :=
  ⟨by decide, by decide,
   (C4_uid_injective_on_pipe_free_fields "a" "b" "c" "a" "b" "c"
     (by decide) (by decide) (by decide) (by decide) rfl).1,
   (C4_uid_injective_on_pipe_free_fields "a" "b" "c" "a" "b" "c"
     (by decide) (by decide) (by decide) (by decide) rfl).2⟩

theorem findSome?_find?_priority (P urls : List String) (f : String → String → Bool) :
    P.findSome? (fun d => urls.find? (f d))
      = match P.filter (fun d => urls.any (f d)) with
        | [] => none
        | d :: _ => urls.find? (f d) := by
  induction P with
  | nil => rfl
  | cons d P' ih =>
      rw [List.findSome?_cons]
      simp only [List.filter_cons]
      by_cases hany : urls.any (f d) = true
      · rw [if_pos hany]
        obtain ⟨u, hu, hfu⟩ := List.any_eq_true.1 hany
        cases hfind : urls.find? (f d) with
        | none => exact absurd (List.find?_eq_none.1 hfind u hu) (by simp [hfu])
        | some u' => exact hfind.symm
      · rw [if_neg hany]
        have hfind : urls.find? (f d) = none := by
          rw [List.find?_eq_none]
          intro x hx hfx
          exact hany (List.any_eq_true.2 ⟨x, hx, hfx⟩)
        rw [hfind]
        exact ih

/-- Claim C8: the link extractor implements the priority rule of §4.3: on
every buffer of block lines, its result equals the spec-side choice over the
collected urls — none when no URL is present, the first URL (in
provider-priority order, then url order) whose lowercased text contains a
known meeting-provider marker when one exists, and the first URL in line
order otherwise.  In particular a block holding both example.com and zoom.us
links resolves to the zoom.us link in either order. -/
theorem C8_link_priority :
    (∀ lines : List String,
      extract_meeting_link_from_lines lines = linkSpecChoice (urlsOfLines lines)) ∧
    extract_meeting_link_from_lines ["https://example.com/x", "https://zoom.us/j/123"]
      = some "https://zoom.us/j/123" ∧
    extract_meeting_link_from_lines ["https://zoom.us/j/123", "https://example.com/x"]
      = some "https://zoom.us/j/123" ∧
    extract_meeting_link_from_lines ["no url here, meeting in room 3"] = none := by
  refine ⟨?_, by decide, by decide, by decide⟩
  intro lines
  unfold extract_meeting_link_from_lines linkSpecChoice
  rw [findSome?_find?_priority]
  cases hurls : urlsOfLines lines with
  | nil => simp
  | cons u us =>
      simp only [List.isEmpty_cons, Bool.false_eq_true, if_false]
      cases hfilter : MEETING_DOMAINS_PRIORITY.filter
          (fun d => (u :: us).any (fun v => containsSub (lowerStr v) d)) with
      | nil => rfl
      | cons d ds =>
          have hd : d ∈ MEETING_DOMAINS_PRIORITY.filter
              (fun d => (u :: us).any (fun v => containsSub (lowerStr v) d)) := by
            rw [hfilter]
            exact List.mem_cons_self d ds
          have hany := (List.mem_filter.1 hd).2
          obtain ⟨v, hv, hfv⟩ := List.any_eq_true.1 hany
          cases hfind : (u :: us).find? (fun v => containsSub (lowerStr v) d) with
          | none => exact absurd (List.find?_eq_none.1 hfind v hv) (by simp [hfv])
          | some w => simp [hfind]

theorem string_append_group5 (s a b c d e : String) :
    s ++ a ++ b ++ c ++ d ++ e = s ++ (a ++ b ++ c ++ d ++ e) := by
  apply String.ext
  simp only [String.data_append, List.append_assoc]

/-- Claim C9: within an active block, the line
"2025-10-21 11:30 AM - 12:00 PM" sets start 2025-10-21T11:30:00 and end
2025-10-21T12:00:00 (whatever the processing date is); and a bare
"11:30 - 12:00" line resolves both times against the current processing
date, even when an earlier line of the block supplied a different date
(here a bare date line 2025-10-30). -/
theorem C9_time_range_parsing :
    (∀ todayIso : String,
      parse_events todayIso ["• Meeting", "2025-10-21 11:30 AM - 12:00 PM"]
        = [⟨"Meeting", some "2025-10-21T11:30:00", some "2025-10-21T12:00:00", none⟩]) ∧
    (∀ todayIso : String,
      parse_events todayIso ["• Meeting", "2025-10-30", "11:30 - 12:00"]
        = [⟨"Meeting", some (todayIso ++ "T11:30:00"), some (todayIso ++ "T12:00:00"),
            none⟩]) := by
  constructor
  · intro todayIso
    rfl
  · intro todayIso
    calc parse_events todayIso ["• Meeting", "2025-10-30", "11:30 - 12:00"]
        = [⟨"Meeting", some (todayIso ++ "T" ++ "11" ++ ":" ++ "30" ++ ":00"),
            some (todayIso ++ "T" ++ "12" ++ ":" ++ "00" ++ ":00"), none⟩] := by rfl
      _ = [⟨"Meeting", some (todayIso ++ "T11:30:00"), some (todayIso ++ "T12:00:00"),
            none⟩] := by
          rw [string_append_group5, string_append_group5]
          rfl
